import Mathlib

/-!
Verification development for the arrow-db columnar database core
(crate arrow-db-core).  The definitions below are a shallow embedding of
the Rust source: the column mutation kernel (src/column.rs), the row
mutation kernel (src/row.rs, src/sql/delete.rs), the predicate evaluator
and plan walker (src/sql/utils.rs), the DELETE executor
(src/sql/delete.rs) and the pagination metadata (src/pagination.rs).

Machine integers are modelled as Nat/Int; a Rust panic (slice index out
of bounds, integer underflow, division by zero) is modelled as an
explicit error constructor distinct from the crate's DbError values.
Floating-point payloads are carried as opaque bit patterns (Nat); every
function that compares floats is parameterised by a FloatModel record
standing for the epsilon-based comparison routines, so theorems hold for
every interpretation of those routines.
-/

namespace ArrowDb

/-- Subset of the datafusion Operator enum that the evaluator inspects
(src/sql/utils.rs); every other operator falls into `other`. -/
inductive Operator where
  | eq
  | notEq
  | lt
  | ltEq
  | gt
  | gtEq
  | logicalAnd
  | logicalOr
  | other
deriving DecidableEq

/-- Arrow DataType tags handled by the mutation kernel and the evaluator;
`other` stands for every remaining arrow type (Union, ...). -/
inductive DataTypeTag where
  | int32
  | int64
  | float32
  | float64
  | boolean
  | date32
  | date64
  | utf8
  | other (tag : String)
deriving DecidableEq

/-- Printable name of a type tag, used in error messages. -/
def DataTypeTag.typeName : DataTypeTag → String
  | .int32 => "Int32"
  | .int64 => "Int64"
  | .float32 => "Float32"
  | .float64 => "Float64"
  | .boolean => "Boolean"
  | .date32 => "Date32"
  | .date64 => "Date64"
  | .utf8 => "Utf8"
  | .other tag => tag

/-- datafusion ScalarValue variants the code inspects.  Float payloads are
bit patterns (Nat).  `other` covers every remaining variant. -/
inductive ScalarValue where
  | int32 (v : Option Int)
  | int64 (v : Option Int)
  | float32 (v : Option Nat)
  | float64 (v : Option Nat)
  | boolean (v : Option Bool)
  | date32 (v : Option Int)
  | utf8 (v : Option String)
  | other
deriving DecidableEq

/-- A typed arrow array: one constructor per type tag the code mutates or
reads, carrying logical values with their null bits (`none` = null).
`other` keeps only the per-row null bits of an array the kernel does not
interpret. -/
inductive Column where
  | int32 (values : List (Option Int))
  | int64 (values : List (Option Int))
  | float32 (values : List (Option Nat))
  | float64 (values : List (Option Nat))
  | boolean (values : List (Option Bool))
  | date32 (values : List (Option Int))
  | date64 (values : List (Option Int))
  | utf8 (values : List (Option String))
  | other (tag : String) (nulls : List Bool)
deriving DecidableEq

/-- Array length. -/
def Column.len : Column → Nat
  | .int32 vs => vs.length
  | .int64 vs => vs.length
  | .float32 vs => vs.length
  | .float64 vs => vs.length
  | .boolean vs => vs.length
  | .date32 vs => vs.length
  | .date64 vs => vs.length
  | .utf8 vs => vs.length
  | .other _ nulls => nulls.length

/-- Runtime type tag of an array. -/
def Column.dataType : Column → DataTypeTag
  | .int32 _ => .int32
  | .int64 _ => .int64
  | .float32 _ => .float32
  | .float64 _ => .float64
  | .boolean _ => .boolean
  | .date32 _ => .date32
  | .date64 _ => .date64
  | .utf8 _ => .utf8
  | .other tag _ => .other tag

/-- Null bit of row i (Array::is_null); callers only consult it for
in-range rows. -/
def Column.isNull (c : Column) (i : Nat) : Bool :=
  match c with
  | .int32 vs => ((vs.get? i).getD none).isNone
  | .int64 vs => ((vs.get? i).getD none).isNone
  | .float32 vs => ((vs.get? i).getD none).isNone
  | .float64 vs => ((vs.get? i).getD none).isNone
  | .boolean vs => ((vs.get? i).getD none).isNone
  | .date32 vs => ((vs.get? i).getD none).isNone
  | .date64 vs => ((vs.get? i).getD none).isNone
  | .utf8 vs => ((vs.get? i).getD none).isNone
  | .other _ nulls => nulls.getD i false

/-- Number of null slots in the array. -/
def Column.nullCount : Column → Nat
  | .int32 vs => (vs.filter Option.isNone).length
  | .int64 vs => (vs.filter Option.isNone).length
  | .float32 vs => (vs.filter Option.isNone).length
  | .float64 vs => (vs.filter Option.isNone).length
  | .boolean vs => (vs.filter Option.isNone).length
  | .date32 vs => (vs.filter Option.isNone).length
  | .date64 vs => (vs.filter Option.isNone).length
  | .utf8 vs => (vs.filter Option.isNone).length
  | .other _ nulls => (nulls.filter (· = true)).length

/-- Typed value extraction of get_column_value (src/sql/utils.rs lines
392-439): only Int32, Float32, Float64, Boolean, Date32 and Utf8 are
extracted; every other runtime type (including Int64 and Date64) yields
none. -/
def Column.scalarAt (c : Column) (i : Nat) : Option ScalarValue :=
  match c with
  | .int32 vs => ((vs.get? i).getD none).map (fun v => ScalarValue.int32 (some v))
  | .float32 vs => ((vs.get? i).getD none).map (fun v => ScalarValue.float32 (some v))
  | .float64 vs => ((vs.get? i).getD none).map (fun v => ScalarValue.float64 (some v))
  | .boolean vs => ((vs.get? i).getD none).map (fun v => ScalarValue.boolean (some v))
  | .date32 vs => ((vs.get? i).getD none).map (fun v => ScalarValue.date32 (some v))
  | .utf8 vs => ((vs.get? i).getD none).map (fun v => ScalarValue.utf8 (some v))
  | _ => none

/-- A schema field: name, type tag, nullability (arrow Field). -/
structure Field where
  name : String
  dataType : DataTypeTag
  nullable : Bool
deriving DecidableEq

/-- An immutable batch: schema plus columns (arrow RecordBatch). -/
structure RecordBatch where
  schema : List Field
  columns : List Column
deriving DecidableEq

/-- RecordBatch::num_rows: length of the first column (0 when there are
no columns). -/
def RecordBatch.numRows (rb : RecordBatch) : Nat :=
  match rb.columns with
  | [] => 0
  | c :: _ => c.len

/-- RecordBatch::num_columns. -/
def RecordBatch.numColumns (rb : RecordBatch) : Nat :=
  rb.columns.length

/-- Modelled from the spec: the core crate's table.rs is not in the
source dump; spec section 3 defines a table as a (name, batch) pair, and
every present source file accesses exactly the fields `name` and
`record_batch`. -/
structure Table where
  name : String
  recordBatch : RecordBatch
deriving DecidableEq

/-- Error kinds of the crate (src/src/error.rs DbError). -/
inductive DbError where
  | arrayData (msg : String)
  | createDatabase (msg : String)
  | createRecordBatch (msg : String)
  | columnIndexOutOfBounds (index : Nat) (table : String)
  | dataType (msg : String)
  | query (msg : String) (detail : String)
  | tableAlreadyExists (name : String)
  | tableExportError (table : String) (detail : String)
  | tableImportError (table : String) (detail : String)
  | tableNotFound (name : String)
deriving DecidableEq

/-- Either a DbError surfaced by the code, or a Rust panic (out-of-bounds
slice access, integer underflow, division by zero). -/
inductive RunError where
  | db (e : DbError)
  | panic (msg : String)
deriving DecidableEq

/-- Shorthand for returning a DbError. -/
def errDb {α : Type} (e : DbError) : Except RunError α :=
  .error (.db e)

/-- Does the result hold a DbError (as opposed to success or a panic)? -/
def isDbErr {α : Type} : Except RunError α → Bool
  | .error (.db _) => true
  | _ => false

/-- Does the result model a Rust panic? -/
def isPanicErr {α : Type} : Except RunError α → Bool
  | .error (.panic _) => true
  | _ => false

/-- Does the result hold the Query error kind? -/
def isQueryErr {α : Type} : Except RunError α → Bool
  | .error (.db (.query _ _)) => true
  | _ => false

/-- A database: named collection of tables (src/database.rs).  The
DashMap keyed by table name is modelled as a list looked up by name. -/
structure Database where
  name : String
  tables : List Table
deriving DecidableEq

/-- get_table! macro (src/database.rs lines 178-185). -/
def Database.getTable (db : Database) (name : String) : Except RunError Table :=
  match db.tables.find? (fun t => t.name = name) with
  | some t => .ok t
  | none => errDb (.tableNotFound name)

/-- Writing back through a get_mut_table! handle: replace the table bound
to this name. -/
def Database.setTable (db : Database) (name : String) (t : Table) : Database :=
  { db with tables := db.tables.map (fun u => if u.name = name then t else u) }

/-- RecordBatch::try_new validation: at least one column, schema arity
equal to column count, all columns of one length, field type equal to
column type position by position, and no nulls in a non-nullable
field. -/
def newRecordBatch (schema : List Field) (columns : List Column) :
    Except RunError RecordBatch :=
  if columns.isEmpty then
    errDb (.createRecordBatch "RecordBatch requires at least one column")
  else if schema.length ≠ columns.length then
    errDb (.createRecordBatch "number of columns must match number of fields")
  else if columns.any (fun c => c.len ≠ (columns.headD (.int32 [])).len) then
    errDb (.createRecordBatch "all columns must have the same length")
  else if (schema.zip columns).any (fun p => p.1.dataType ≠ p.2.dataType) then
    errDb (.createRecordBatch "column types must match schema types")
  else if (schema.zip columns).any (fun p => !p.1.nullable && p.2.nullCount ≠ 0) then
    errDb (.createRecordBatch "column contains null values in non-nullable field")
  else
    .ok { schema := schema, columns := columns }

/-- Batch well-formedness maintained by the system: schema arity matches
the columns, every column has the batch row count, type tags agree
position by position, and nulls only occur under nullable fields. -/
def WellFormed (t : Table) : Prop :=
  t.recordBatch.schema.length = t.recordBatch.columns.length ∧
  (∀ c ∈ t.recordBatch.columns, c.len = t.recordBatch.numRows) ∧
  (∀ p ∈ t.recordBatch.schema.zip t.recordBatch.columns,
    p.1.dataType = p.2.dataType ∧ (p.1.nullable = true ∨ p.2.nullCount = 0))

/-- SetKind (src/column.rs lines 25-41), parameterised by the element
type of the fixed-width array being spliced; the payload is the incoming
ArrayData value buffer read at element granularity. -/
inductive SetKind (α : Type) where
  | append (data : List α)
  | insertAt (data : List α)
  | update (data : List α)
  | remove
deriving DecidableEq

/-- SetKind::get_data. -/
def SetKind.getData {α : Type} : SetKind α → Option (List α)
  | .append data => some data
  | .insertAt data => some data
  | .update data => some data
  | .remove => none

/-- Test for the Remove kind. -/
def SetKind.isRemove {α : Type} : SetKind α → Bool
  | .remove => true
  | _ => false

/-- set_column_data (src/column.rs lines 199-256), the fixed-width
buffer splice, modelled at element granularity: all byte offsets the
code computes (row_index times width, and width inside the tail) are
element boundaries.  `hasWidth` is whether the column data type has a
primitive width (DataType::primitive_width).  The original null buffer
is carried over unchanged by ArrayDataBuilder::from(column_data); it is
not represented here, so the function maps value buffers to value
buffers.  Panics of the source (usize underflow on Remove of an empty
column, split_at beyond the buffer, slicing width bytes off an empty
tail) are returned as RunError.panic. -/
def setColumnData {α : Type} (hasWidth : Bool) (column : List α)
    (row_index : Nat) (kind : SetKind α) : Except RunError (List α) :=
  let data := kind.getData
  let column_len := column.length
  if column_len = 0 ∧ kind.isRemove = true then
    .error (.panic "attempt to subtract with overflow")
  else
    let new_len := match kind with
      | .append d => column_len + d.length
      | .insertAt d => column_len + d.length
      | .update _ => column_len
      | .remove => column_len - 1
    let bufferE : Except RunError (List α) :=
      if column_len = 0 then
        .ok (data.getD [])
      else if hasWidth = false then
        errDb (.dataType "Data type does not have a primitive width")
      else if row_index > column_len then
        .error (.panic "split_at mid out of bounds")
      else
        let head := column.take row_index
        let tail := column.drop row_index
        match kind with
        | .append d => .ok (head ++ d ++ tail)
        | .insertAt d => .ok (head ++ d ++ tail)
        | .update d =>
          if tail.length < 1 then .error (.panic "slice index starts out of range")
          else .ok (head ++ d ++ tail.drop 1)
        | .remove =>
          if tail.length < 1 then .error (.panic "slice index starts out of range")
          else .ok (head ++ tail.drop 1)
    match bufferE with
    | .error e => .error e
    | .ok buffer =>
      if buffer.length < new_len then
        errDb (.arrayData "Error building data: buffer smaller than array length")
      else
        .ok (buffer.take new_len)

/-- insert_column_data (src/column.rs lines 116-124). -/
def insertColumnData {α : Type} (hasWidth : Bool) (column : List α)
    (row_index : Nat) (data : List α) : Except RunError (List α) :=
  setColumnData hasWidth column row_index (SetKind.insertAt data)

/-- append_column_data (src/column.rs lines 104-113): inserts at the end
of the column; the row index is computed internally. -/
def appendColumnData {α : Type} (hasWidth : Bool) (column : List α)
    (data : List α) : Except RunError (List α) :=
  insertColumnData hasWidth column column.length data

/-- remove_column_data (src/column.rs lines 189-196). -/
def removeColumnData {α : Type} (hasWidth : Bool) (column : List α)
    (row_index : Nat) : Except RunError (List α) :=
  setColumnData hasWidth column row_index (SetKind.remove : SetKind α)

/-- StringArray::value(i) on the model: the slot contents, with a null
slot reading back as the empty string (its offsets span no bytes). -/
def stringValueAt (values : List (Option String)) (i : Nat) : String :=
  ((values.get? i).getD none).getD ""

/-- update_string_column_data (src/column.rs lines 151-186), the Utf8
arm of update_column_data: requires exactly one incoming element, then
rebuilds the whole column, reading each existing slot with value(i)
(nulls read back as empty strings and the rebuilt array carries no null
bits). -/
def updateStringColumnData (existing : List (Option String))
    (row_index : Nat) (new_data : List (Option String)) :
    Except RunError (List (Option String)) :=
  if new_data.length ≠ 1 then
    errDb (.dataType "Update data must contain exactly one element")
  else
    let new_value := stringValueAt new_data 0
    .ok ((List.range existing.length).map (fun i =>
      if i = row_index then some new_value else some (stringValueAt existing i)))

/-- column_index_in_bounds (src/column.rs lines 55-64): the only bounds
check of the column kernel, comparing a column index against the schema
field count (an index equal to the count is allowed: it appends). -/
def Table.columnIndexInBounds (t : Table) (column_index : Nat) :
    Except RunError Unit :=
  if column_index > t.recordBatch.schema.length then
    errDb (.columnIndexOutOfBounds column_index t.name)
  else
    .ok ()

/-- add_column (src/column.rs lines 80-101): checks the index against
the schema, inserts the new field at that schema position, but pushes
the new column at the end of the column list; the batch is then rebuilt
through RecordBatch::try_new. -/
def Table.addColumn (t : Table) (column_index : Nat) (name : String)
    (data_type : DataTypeTag) (data : Column) : Except RunError Table :=
  match t.columnIndexInBounds column_index with
  | .error e => .error e
  | .ok _ =>
    let fields := t.recordBatch.schema.insertIdx column_index
      { name := name, dataType := data_type, nullable := true }
    let columns := t.recordBatch.columns ++ [data]
    match newRecordBatch fields columns with
    | .error e => .error e
    | .ok rb => .ok { t with recordBatch := rb }

/-- Interpretation of the floating-point comparison routines of
src/sql/utils.rs over f32/f64 bit patterns: `widen` is the exact f32 to
f64 cast, `cmp` is compare_float_values on two f64 values (epsilon
tolerant, lines 344-363), `eq32`/`eq64` are the epsilon equalities of
scalar_values_equal (lines 454-465).  Theorems quantify over every such
interpretation. -/
structure FloatModel where
  widen : Nat → Nat
  cmp : Nat → Nat → Operator → Bool
  eq32 : Nat → Nat → Bool
  eq64 : Nat → Nat → Bool

/-- Trivial interpretation, usable for concrete witnesses. -/
def trivialFloatModel : FloatModel :=
  { widen := fun v => v, cmp := fun _ _ _ => false
    eq32 := fun _ _ => false, eq64 := fun _ _ => false }

/-- compare_values (src/sql/utils.rs lines 326-341): generic comparison,
false on any non-comparison operator. -/
def compareValues {α : Type} [LinearOrder α] (actual expected : α)
    (operator : Operator) : Bool :=
  match operator with
  | .eq => decide (actual = expected)
  | .notEq => decide (actual ≠ expected)
  | .lt => decide (actual < expected)
  | .ltEq => decide (actual ≤ expected)
  | .gt => decide (actual > expected)
  | .gtEq => decide (actual ≥ expected)
  | _ => false

/-- WHERE expression shapes the evaluator recognises (datafusion Expr
subset); `other` covers every remaining expression kind. -/
inductive Expr where
  | literal (v : ScalarValue)
  | column (name : String)
  | inList (expr : Expr) (list : List Expr) (negated : Bool)
  | like (negated : Bool) (expr : Expr) (pattern : Expr)
  | isNull (expr : Expr)
  | isNotNull (expr : Expr)
  | binary (left : Expr) (op : Operator) (right : Expr)
  | other

/-- extract_scalar_value (src/sql/utils.rs lines 24-30). -/
def extractScalarValue : Expr → Option ScalarValue
  | .literal scalar => some scalar
  | .column _ => none
  | _ => none

/-- Schema::column_with_name: index of the first field with this name. -/
def columnIndexOfName (schema : List Field) (column_name : String) :
    Option Nat :=
  schema.findIdx? (fun f => f.name = column_name)

/-- get_column_value (src/sql/utils.rs lines 366-440): resolves the
column by name (Query error when absent), yields none for an
out-of-range row, a null slot, or a runtime type outside the extracted
set. -/
def getColumnValue (db : Database) (table_name column_name : String)
    (row_idx : Nat) : Except RunError (Option ScalarValue) :=
  match db.getTable table_name with
  | .error e => .error e
  | .ok table =>
    match columnIndexOfName table.recordBatch.schema column_name with
    | none => errDb (.query ("Column " ++ column_name ++ " not found") "")
    | some column_index =>
      match table.recordBatch.columns.get? column_index with
      | none => .error (.panic "RecordBatch::column index out of bounds")
      | some column =>
        if row_idx ≥ column.len then
          .ok none
        else if column.isNull row_idx then
          .ok none
        else
          .ok (column.scalarAt row_idx)

/-- scalar_values_equal (src/sql/utils.rs lines 443-484). -/
def scalarValuesEqual (FM : FloatModel) (a : Option ScalarValue)
    (b : ScalarValue) : Bool :=
  match a, b with
  | some (.int32 (some av)), .int32 (some bv) => decide (av = bv)
  | some (.int32 (some av)), .int64 (some bv) => decide (av = bv)
  | some (.float32 (some av)), .float32 (some bv) => FM.eq32 av bv
  | some (.float64 (some av)), .float64 (some bv) => FM.eq64 av bv
  | some (.float32 (some av)), .float64 (some bv) => FM.eq64 (FM.widen av) bv
  | some (.float64 (some av)), .float32 (some bv) => FM.eq64 av (FM.widen bv)
  | some (.boolean (some av)), .boolean (some bv) => decide (av = bv)
  | some (.date32 (some av)), .date32 (some bv) => decide (av = bv)
  | some (.utf8 (some av)), .utf8 (some bv) => decide (av = bv)
  | _, _ => false

/-- is_column_null (src/sql/utils.rs lines 487-510): resolves the column
by name; an out-of-bounds row is considered null. -/
def isColumnNull (db : Database) (table_name column_name : String)
    (row_idx : Nat) : Except RunError Bool :=
  match db.getTable table_name with
  | .error e => .error e
  | .ok table =>
    match columnIndexOfName table.recordBatch.schema column_name with
    | none => errDb (.query ("Column " ++ column_name ++ " not found") "")
    | some column_index =>
      match table.recordBatch.columns.get? column_index with
      | none => .error (.panic "RecordBatch::column index out of bounds")
      | some column =>
        if row_idx ≥ column.len then
          .ok true
        else
          .ok (column.isNull row_idx)

/-- simple_like_match (src/sql/utils.rs lines 519-557): recursive LIKE
matching over the character sequences, with percent and underscore
wildcards. -/
def simpleLikeMatch (text pattern : List Char) (text_idx pattern_idx : Nat) :
    Bool :=
  if hp : pattern_idx ≥ pattern.length then
    text_idx ≥ text.length
  else if ht : text_idx ≥ text.length then
    (pattern.drop pattern_idx).all (fun c => c = '%')
  else
    let pc := pattern.get ⟨pattern_idx, by omega⟩
    if pc = '%' then
      simpleLikeMatch text pattern text_idx (pattern_idx + 1) ||
        simpleLikeMatch text pattern (text_idx + 1) pattern_idx
    else if pc = '_' then
      simpleLikeMatch text pattern (text_idx + 1) (pattern_idx + 1)
    else
      if text.get ⟨text_idx, by omega⟩ = pc then
        simpleLikeMatch text pattern (text_idx + 1) (pattern_idx + 1)
      else
        false
termination_by (text.length - text_idx) + (pattern.length - pattern_idx)
decreasing_by
  all_goals omega

/-- matches_like_pattern (src/sql/utils.rs lines 513-516). -/
def matchesLikePattern (text pattern : String) : Bool :=
  simpleLikeMatch text.toList pattern.toList 0 0

/-- Typed dispatch of check_column_comparison (src/sql/utils.rs lines
238-322) after the column is resolved: match the literal's scalar kind
against the column's runtime type (downcast), read the non-null
in-range value and compare; every unmatched combination, out-of-range
row or null slot falls through to false.  Int64 literals widen Int32
column values; Float64 literals also match Float32 columns through the
f64 cast. -/
def checkColumnComparisonTyped (FM : FloatModel) (row_idx : Nat)
    (expected_value : ScalarValue) (operator : Operator)
    (column : Column) : Bool :=
  match expected_value, column with
  | .int32 (some expected_int), .int32 vs =>
    match vs.get? row_idx with
    | some (some actual_value) =>
      compareValues actual_value expected_int operator
    | _ => false
  | .int64 (some expected_int), .int32 vs =>
    match vs.get? row_idx with
    | some (some actual_value) =>
      compareValues actual_value expected_int operator
    | _ => false
  | .float32 (some expected_float), .float32 vs =>
    match vs.get? row_idx with
    | some (some actual_value) =>
      FM.cmp (FM.widen actual_value) (FM.widen expected_float) operator
    | _ => false
  | .float64 (some expected_float), .float64 vs =>
    match vs.get? row_idx with
    | some (some actual_value) =>
      FM.cmp actual_value expected_float operator
    | _ => false
  | .float64 (some expected_float), .float32 vs =>
    match vs.get? row_idx with
    | some (some actual_value) =>
      FM.cmp (FM.widen actual_value) expected_float operator
    | _ => false
  | .boolean (some expected_bool), .boolean vs =>
    match vs.get? row_idx with
    | some (some actual_value) =>
      compareValues actual_value expected_bool operator
    | _ => false
  | .date32 (some expected_date), .date32 vs =>
    match vs.get? row_idx with
    | some (some actual_value) =>
      compareValues actual_value expected_date operator
    | _ => false
  | .utf8 (some expected_str), .utf8 vs =>
    match vs.get? row_idx with
    | some (some actual_value) =>
      compareValues actual_value expected_str operator
    | _ => false
  | _, _ => false

/-- check_column_comparison (src/sql/utils.rs lines 218-323): resolve
the column by name, then dispatch on the literal kind; every arm after
a successful resolution returns Ok. -/
def checkColumnComparison (FM : FloatModel) (db : Database)
    (table_name column_name : String) (row_idx : Nat)
    (expected_value : ScalarValue) (operator : Operator) :
    Except RunError Bool :=
  match db.getTable table_name with
  | .error e => .error e
  | .ok table =>
    match columnIndexOfName table.recordBatch.schema column_name with
    | none => errDb (.query ("Column " ++ column_name ++ " not found") "")
    | some column_index =>
      match table.recordBatch.columns.get? column_index with
      | none => .error (.panic "RecordBatch::column index out of bounds")
      | some column =>
        .ok (checkColumnComparisonTyped FM row_idx expected_value operator
          column)

/-- evaluate_where_condition (src/sql/utils.rs lines 110-215): the
row-at-a-time predicate evaluator.  Any unsupported shape or operator
yields false. -/
def evaluateWhereCondition (FM : FloatModel) (db : Database)
    (condition : Expr) (table_name : String) (row_idx : Nat) :
    Except RunError Bool :=
  match condition with
  | .inList in_expr list negated =>
    match in_expr with
    | .column column_name =>
      match getColumnValue db table_name column_name row_idx with
      | .error e => .error e
      | .ok column_value =>
        let found := list.any (fun list_expr =>
          match extractScalarValue list_expr with
          | some list_value => scalarValuesEqual FM column_value list_value
          | none => false)
        .ok (if negated then !found else found)
    | _ => .ok false
  | .like negated like_expr pattern =>
    match like_expr, pattern with
    | .column column_name, .literal (.utf8 (some pattern_str)) =>
      match getColumnValue db table_name column_name row_idx with
      | .error e => .error e
      | .ok (some (.utf8 (some actual_str))) =>
        let m := matchesLikePattern actual_str pattern_str
        .ok (if negated then !m else m)
      | .ok _ => .ok false
    | _, _ => .ok false
  | .isNull e =>
    match e with
    | .column column_name => isColumnNull db table_name column_name row_idx
    | _ => .ok false
  | .isNotNull e =>
    match e with
    | .column column_name =>
      match isColumnNull db table_name column_name row_idx with
      | .error err => .error err
      | .ok is_null => .ok (!is_null)
    | _ => .ok false
  | .binary left op right =>
    match op with
    | .eq | .notEq | .lt | .ltEq | .gt | .gtEq =>
      match left, right with
      | .column column_name, .literal value =>
        checkColumnComparison FM db table_name column_name row_idx value op
      | _, _ => .ok false
    | .logicalAnd =>
      match evaluateWhereCondition FM db left table_name row_idx with
      | .error e => .error e
      | .ok left_result =>
        match evaluateWhereCondition FM db right table_name row_idx with
        | .error e => .error e
        | .ok right_result => .ok (left_result && right_result)
    | .logicalOr =>
      match evaluateWhereCondition FM db left table_name row_idx with
      | .error e => .error e
      | .ok left_result =>
        match evaluateWhereCondition FM db right table_name row_idx with
        | .error e => .error e
        | .ok right_result => .ok (left_result || right_result)
    | .other => .ok false
  | _ => .ok false

/-- scalar_to_array_ref (src/sql/utils.rs lines 626-643): converts a
literal to a one-element array.  An Int64 literal is narrowed to Int32
with a wrapping `as i32` cast regardless of any target type. -/
def wrapToInt32 (v : Int) : Int :=
  (v + 2 ^ 31) % 2 ^ 32 - 2 ^ 31

/-- scalar_to_array_ref itself. -/
def scalarToArrayRef (value : ScalarValue) : Except RunError Column :=
  match value with
  | .int32 (some v) => .ok (.int32 [some v])
  | .int64 (some v) => .ok (.int32 [some (wrapToInt32 v)])
  | .float32 (some v) => .ok (.float32 [some v])
  | .float64 (some v) => .ok (.float64 [some v])
  | .boolean (some v) => .ok (.boolean [some v])
  | .date32 (some v) => .ok (.date32 [some v])
  | .utf8 (some v) => .ok (.utf8 [some v])
  | _ => errDb (.query "Unsupported data type for INSERT" "")

/-- Inner loop of delete_row (src/row.rs lines 74-83 and the analogous
arms): scan the indices 0..num_rows, push value(i) with its null bit for
every i other than row_idx; reading past the end of the array is a
panic. -/
def deleteRowValues {β : Type} (vs : List (Option β)) (num_rows row_idx : Nat) :
    Except RunError (List (Option β)) :=
  ((List.range num_rows).filter (fun i => i ≠ row_idx)).mapM (fun i =>
    match vs.get? i with
    | some v => .ok v
    | none => .error (.panic "array value index out of bounds"))

/-- Per-column body of delete_row (src/row.rs lines 67-168, identical in
src/sql/delete.rs lines 98-199): the supported runtime types are Int32,
Float32, Float64, Boolean, Date32 and Utf8; every other type (including
Int64 and Date64) fails with the Query error.  In this model the
downcast of a supported column always succeeds because the constructor
is the runtime type. -/
def Column.deleteRow (column : Column) (num_rows row_idx : Nat) :
    Except RunError Column :=
  match column with
  | .int32 vs => (deleteRowValues vs num_rows row_idx).map (fun ws => Column.int32 ws)
  | .float32 vs => (deleteRowValues vs num_rows row_idx).map (fun ws => Column.float32 ws)
  | .float64 vs => (deleteRowValues vs num_rows row_idx).map (fun ws => Column.float64 ws)
  | .boolean vs => (deleteRowValues vs num_rows row_idx).map (fun ws => Column.boolean ws)
  | .date32 vs => (deleteRowValues vs num_rows row_idx).map (fun ws => Column.date32 ws)
  | .utf8 vs => (deleteRowValues vs num_rows row_idx).map (fun ws => Column.utf8 ws)
  | c => errDb (.query ("Unsupported data type for DELETE: " ++ c.dataType.typeName) "")

/-- Is the column's runtime type in the set delete_row reconstructs? -/
def Column.deleteSupported : Column → Bool
  | .int32 _ => true
  | .float32 _ => true
  | .float64 _ => true
  | .boolean _ => true
  | .date32 _ => true
  | .utf8 _ => true
  | _ => false

/-- delete_row (src/row.rs lines 50-176): bounds-check the row index,
rebuild every column without that row, then rebuild the batch under the
unchanged schema. -/
def Table.deleteRow (t : Table) (row_idx : Nat) : Except RunError Table :=
  let num_rows := t.recordBatch.numRows
  if row_idx ≥ num_rows then
    errDb (.query "Row index out of bounds" "")
  else
    match t.recordBatch.columns.mapM (fun c => c.deleteRow num_rows row_idx) with
    | .error e => .error e
    | .ok new_columns =>
      match newRecordBatch t.recordBatch.schema new_columns with
      | .error e => .error e
      | .ok rb => .ok { t with recordBatch := rb }

/-- delete_row_from_table (src/sql/delete.rs lines 80-207): the same
algorithm applied through a get_mut_table handle; the updated table is
written back into the database. -/
def Database.deleteRowFromTable (db : Database) (table_name : String)
    (row_idx : Nat) : Except RunError Database :=
  match db.getTable table_name with
  | .error e => .error e
  | .ok table =>
    match table.deleteRow row_idx with
    | .error e => .error e
    | .ok new_table => .ok (db.setTable table_name new_table)

/-- datafusion LogicalPlan node kinds the walker distinguishes
(src/sql/utils.rs lines 33-107); `other` carries the generic inputs()
list of any remaining node kind. -/
inductive LogicalPlan where
  | filter (predicate : Expr) (input : LogicalPlan)
  | tableScan (table_name : String)
  | projection (input : LogicalPlan)
  | sort (input : LogicalPlan)
  | limit (input : LogicalPlan)
  | aggregate (input : LogicalPlan)
  | distinct (input : LogicalPlan)
  | join (left : LogicalPlan) (right : LogicalPlan)
  | union (inputs : List LogicalPlan)
  | subqueryAlias (input : LogicalPlan)
  | other (inputs : List LogicalPlan)

/-- extract_where_condition (src/sql/utils.rs lines 33-107): return the
predicate of the first Filter found, recursing into the first input of
wrapper nodes (left before right for Join); TableScan and input-less
nodes yield none. -/
def extractWhereCondition : LogicalPlan → Except RunError (Option Expr)
  | .filter predicate _ => .ok (some predicate)
  | .tableScan _ => .ok none
  | .projection input => extractWhereCondition input
  | .sort input => extractWhereCondition input
  | .limit input => extractWhereCondition input
  | .aggregate input => extractWhereCondition input
  | .distinct input => extractWhereCondition input
  | .join left right =>
    match extractWhereCondition left with
    | .error e => .error e
    | .ok (some condition) => .ok (some condition)
    | .ok none => extractWhereCondition right
  | .union [] => .ok none
  | .union (first_input :: _) => extractWhereCondition first_input
  | .subqueryAlias input => extractWhereCondition input
  | .other [] => .ok none
  | .other (first_input :: _) => extractWhereCondition first_input

/-- parse_delete_plan (src/sql/delete.rs lines 28-33): a DELETE plan
contributes only its optional WHERE condition. -/
def parseDeletePlan (input : LogicalPlan) : Except RunError (Option Expr) :=
  extractWhereCondition input

/-- Row-matching loop of execute_delete (src/sql/delete.rs lines 50-67):
collect every row index in 0..num_rows whose WHERE evaluation is true
(all rows when there is no WHERE). -/
def computeMatchingRows (FM : FloatModel) (db : Database)
    (where_condition : Option Expr) (table_name : String) (num_rows : Nat) :
    Except RunError (List Nat) :=
  (List.range num_rows).foldlM (fun matching_rows row_idx =>
    match (match where_condition with
           | some condition =>
             evaluateWhereCondition FM db condition table_name row_idx
           | none => .ok true) with
    | .error e => .error e
    | .ok should_delete =>
      .ok (if should_delete then matching_rows ++ [row_idx] else matching_rows)) []

/-- execute_delete (src/sql/delete.rs lines 36-77): extract the WHERE,
collect matching rows, delete them in reverse (descending) order, and
return the deleted count with the updated database. -/
def Database.executeDelete (FM : FloatModel) (db : Database)
    (table_name : String) (input : LogicalPlan) :
    Except RunError (Nat × Database) :=
  match parseDeletePlan input with
  | .error e => .error e
  | .ok where_condition =>
    match db.getTable table_name with
    | .error e => .error e
    | .ok table =>
      let num_rows := table.recordBatch.numRows
      match computeMatchingRows FM db where_condition table_name num_rows with
      | .error e => .error e
      | .ok rows_to_delete =>
        rows_to_delete.reverse.foldlM (fun state row_idx =>
          match state.2.deleteRowFromTable table_name row_idx with
          | .error e => .error e
          | .ok db2 => .ok (state.1 + 1, db2)) ((0 : Nat), db)

/-- PaginationInfo (src/pagination.rs lines 8-24). -/
structure PaginationInfo where
  page : Nat
  page_size : Nat
  rows_in_page : Nat
  total_rows : Option Nat
  total_pages : Option Nat
  has_next_page : Bool
  has_previous_page : Bool
deriving DecidableEq

/-- usize::div_ceil as Rust computes it (self / rhs plus one when a
remainder exists); division by zero is a panic handled by the caller
model. -/
def divCeil (total page_size : Nat) : Nat :=
  total / page_size + (if total % page_size ≠ 0 then 1 else 0)

/-- PaginationInfo::new (src/pagination.rs lines 28-50).  When
total_rows is known and page_size is zero the div_ceil call panics,
modelled as RunError.panic. -/
def paginationInfoNew (page page_size rows_in_page : Nat)
    (total_rows : Option Nat) : Except RunError PaginationInfo :=
  if total_rows.isSome ∧ page_size = 0 then
    .error (.panic "attempt to calculate the remainder with a divisor of zero")
  else
    .ok
      { page := page
        page_size := page_size
        rows_in_page := rows_in_page
        total_rows := total_rows
        total_pages := total_rows.map (fun total => divCeil total page_size)
        has_next_page :=
          match total_rows with
          | some total => decide ((page + 1) * page_size < total)
          | none => decide (rows_in_page = page_size)
        has_previous_page := decide (page > 0) }

/-- Rows that survive a DELETE whose matching predicate is p: the
elements at non-matching indices, in their original relative order. -/
def keepNonMatching {β : Type} (p : Nat → Bool) : List β → List β
  | [] => []
  | v :: rest =>
    if p 0 then keepNonMatching (fun i => p (i + 1)) rest
    else v :: keepNonMatching (fun i => p (i + 1)) rest

/-- One row removed from a column, null bits preserved. -/
def Column.eraseRow (c : Column) (row_idx : Nat) : Column :=
  match c with
  | .int32 vs => .int32 (vs.eraseIdx row_idx)
  | .int64 vs => .int64 (vs.eraseIdx row_idx)
  | .float32 vs => .float32 (vs.eraseIdx row_idx)
  | .float64 vs => .float64 (vs.eraseIdx row_idx)
  | .boolean vs => .boolean (vs.eraseIdx row_idx)
  | .date32 vs => .date32 (vs.eraseIdx row_idx)
  | .date64 vs => .date64 (vs.eraseIdx row_idx)
  | .utf8 vs => .utf8 (vs.eraseIdx row_idx)
  | .other tag nulls => .other tag (nulls.eraseIdx row_idx)

/-- A column restricted to the rows a predicate does not match. -/
def Column.keepRows (c : Column) (p : Nat → Bool) : Column :=
  match c with
  | .int32 vs => .int32 (keepNonMatching p vs)
  | .int64 vs => .int64 (keepNonMatching p vs)
  | .float32 vs => .float32 (keepNonMatching p vs)
  | .float64 vs => .float64 (keepNonMatching p vs)
  | .boolean vs => .boolean (keepNonMatching p vs)
  | .date32 vs => .date32 (keepNonMatching p vs)
  | .date64 vs => .date64 (keepNonMatching p vs)
  | .utf8 vs => .utf8 (keepNonMatching p vs)
  | .other tag nulls => .other tag (keepNonMatching p nulls)

/-- A table with one row removed from every column. -/
def tableEraseRow (t : Table) (row_idx : Nat) : Table :=
  { t with recordBatch :=
      { schema := t.recordBatch.schema
        columns := t.recordBatch.columns.map (fun c => c.eraseRow row_idx) } }

/-- A table restricted to the rows a predicate does not match. -/
def tableKeepRows (t : Table) (p : Nat → Bool) : Table :=
  { t with recordBatch :=
      { schema := t.recordBatch.schema
        columns := t.recordBatch.columns.map (fun c => c.keepRows p) } }

/-- A sequence of row indices that stays in bounds while rows are
deleted one by one (each deletion shrinks the table by one row). -/
def ValidDeleteSeq : List Nat → Nat → Prop
  | [], _ => True
  | i :: rest, n => i < n ∧ ValidDeleteSeq rest (n - 1)

/-- Wrapper node kinds of claim C7: each is traversed through its first
input by the plan walker. -/
inductive WrapperNode where
  | projection
  | sort
  | limit
  | aggregate
  | distinct

/-- Surround a plan with a nest of wrapper nodes. -/
def applyWrappers (ws : List WrapperNode) (plan : LogicalPlan) : LogicalPlan :=
  match ws with
  | [] => plan
  | w :: rest =>
    let inner := applyWrappers rest plan
    match w with
    | .projection => .projection inner
    | .sort => .sort inner
    | .limit => .limit inner
    | .aggregate => .aggregate inner
    | .distinct => .distinct inner

/-- Sample data used by concrete witnesses: the seed table of the
repository tests (users with ids 1..4). -/
def usersTable : Table :=
  { name := "users"
    recordBatch :=
      { schema := [{ name := "id", dataType := .int32, nullable := true },
                   { name := "name", dataType := .utf8, nullable := true }]
        columns := [Column.int32 [some 1, some 2, some 3, some 4],
                    Column.utf8 [some "Alice", some "Bob", some "Charlie", some "David"]] } }

/-- Sample database holding the users table. -/
def sampleDb : Database :=
  { name := "MyDB", tables := [usersTable] }

/-- Sample table whose only column holds a single NULL Int32 value. -/
def nullTable : Table :=
  { name := "t"
    recordBatch :=
      { schema := [{ name := "a", dataType := .int32, nullable := true }]
        columns := [Column.int32 [none]] } }

/-- Sample database holding the null table. -/
def nullDb : Database :=
  { name := "MyDB", tables := [nullTable] }

/-- Sample table with an Int64 column (a type the row-delete kernel does
not reconstruct). -/
def int64Table : Table :=
  { name := "t64"
    recordBatch :=
      { schema := [{ name := "a", dataType := .int64, nullable := true }]
        columns := [Column.int64 [some 1, some 2]] } }

/-!  Theorems.  -/

/-- C7: for every logical plan built by surrounding a Filter node with
predicate Q by any nesting of Projection, Sort, Limit, Aggregate and
Distinct wrappers (each traversed via its first input),
extract_where_condition returns Some(Q); on a Filter it returns the
node's predicate, and on a TableScan it returns None. -/
theorem extractWhere_through_wrappers :
    (∀ (ws : List WrapperNode) (q : Expr) (inner : LogicalPlan),
      extractWhereCondition (applyWrappers ws (.filter q inner)) = .ok (some q)) ∧
    (∀ (q : Expr) (inner : LogicalPlan),
      extractWhereCondition (.filter q inner) = .ok (some q)) ∧
    (∀ tn : String, extractWhereCondition (.tableScan tn) = .ok none) := by
  refine ⟨?_, fun q inner => rfl, fun tn => rfl⟩
  intro ws q inner
  induction ws with
  | nil => rfl
  | cons w rest ih =>
    cases w <;> simpa [applyWrappers, extractWhereCondition] using ih

/-- C9: scalar_to_array_ref converts an Int64 literal v into a
one-element Int32 array holding v reduced modulo 2 to the 32nd (the
wrapping `as i32` cast), for every v and with no target type in sight;
out-of-range values are wrapped, never rejected, as the concrete value
2 to the 31st (which wraps to its negation) shows. -/
theorem scalarToArrayRef_int64_wraps :
    (∀ v : Int,
      scalarToArrayRef (.int64 (some v)) = .ok (.int32 [some (wrapToInt32 v)]) ∧
      (wrapToInt32 v - v) % 2 ^ 32 = 0 ∧
      -(2 ^ 31) ≤ wrapToInt32 v ∧ wrapToInt32 v < 2 ^ 31) ∧
    wrapToInt32 (2 ^ 31) = -(2 ^ 31) := by
  constructor
  · intro v
    refine ⟨rfl, ?_, ?_, ?_⟩ <;> simp only [wrapToInt32] <;> omega
  · decide

/-- C8: with a known total row count (and a nonzero page size, without
which the Rust div_ceil panics), PaginationInfo::new computes
total_pages as the ceiling of total over page_size, which satisfies
page_size * total_pages ≥ total_rows ≥ page_size * (total_pages - 1),
with has_next_page = ((page+1) * page_size < total_rows) and
has_previous_page = (page > 0); with an unknown total, total_pages is
unknown and has_next_page = (rows_in_page == page_size). -/
theorem paginationInfoNew_correct (page page_size rows_in_page total : Nat)
    (hps : 0 < page_size) :
    paginationInfoNew page page_size rows_in_page (some total) =
      .ok { page := page, page_size := page_size, rows_in_page := rows_in_page
            total_rows := some total
            total_pages := some (divCeil total page_size)
            has_next_page := decide ((page + 1) * page_size < total)
            has_previous_page := decide (page > 0) } ∧
    page_size * divCeil total page_size ≥ total ∧
    total ≥ page_size * (divCeil total page_size - 1) ∧
    paginationInfoNew page page_size rows_in_page none =
      .ok { page := page, page_size := page_size, rows_in_page := rows_in_page
            total_rows := none
            total_pages := none
            has_next_page := decide (rows_in_page = page_size)
            has_previous_page := decide (page > 0) } := by
  have hmod := Nat.div_add_mod total page_size
  have hlt := Nat.mod_lt total hps
  refine ⟨?_, ?_, ?_, ?_⟩
  · unfold paginationInfoNew
    rw [if_neg (by simp [Nat.pos_iff_ne_zero.mp hps])]
    rfl
  · rcases Nat.eq_zero_or_pos (total % page_size) with hr | hr
    · have h0 : divCeil total page_size = total / page_size := by
        simp [divCeil, hr]
      rw [h0, ge_iff_le]
      rw [hr, Nat.add_zero] at hmod
      exact le_of_eq hmod.symm
    · have h0 : divCeil total page_size = total / page_size + 1 := by
        simp [divCeil, Nat.pos_iff_ne_zero.mp hr]
      rw [h0, ge_iff_le, Nat.mul_add, Nat.mul_one]
      calc total = page_size * (total / page_size) + total % page_size :=
            hmod.symm
        _ ≤ page_size * (total / page_size) + page_size :=
            Nat.add_le_add_left hlt.le _
  · rcases Nat.eq_zero_or_pos (total % page_size) with hr | hr
    · have h0 : divCeil total page_size = total / page_size := by
        simp [divCeil, hr]
      rw [h0, ge_iff_le]
      exact le_trans (Nat.mul_le_mul_left _ (Nat.sub_le _ _)) (Nat.le.intro hmod)
    · have h0 : divCeil total page_size = total / page_size + 1 := by
        simp [divCeil, Nat.pos_iff_ne_zero.mp hr]
      rw [h0, ge_iff_le, Nat.add_sub_cancel]
      exact Nat.le.intro hmod
  · unfold paginationInfoNew
    rw [if_neg (by simp)]
    rfl

/-- C8 witness at page 0, page size 10, total 25 rows, and an
unknown-total page. -/
theorem paginationInfoNew_correct_witness :
    0 < 10 ∧
    (paginationInfoNew 0 10 10 (some 25) =
      .ok { page := 0, page_size := 10, rows_in_page := 10
            total_rows := some 25, total_pages := some (divCeil 25 10)
            has_next_page := decide ((0 + 1) * 10 < 25)
            has_previous_page := decide (0 > 0) } ∧
      10 * divCeil 25 10 ≥ 25 ∧ 25 ≥ 10 * (divCeil 25 10 - 1) ∧
      paginationInfoNew 0 10 10 none =
      .ok { page := 0, page_size := 10, rows_in_page := 10
            total_rows := none, total_pages := none
            has_next_page := decide (10 = 10)
            has_previous_page := decide (0 > 0) }) :=
  ⟨by decide, paginationInfoNew_correct 0 10 10 25 (by decide)⟩

/-- C10: for a column resolvable by name whose length is at most the
requested row index, is_column_null answers true, so IS NULL evaluates
to true and IS NOT NULL to false at that out-of-range row. -/
theorem isColumnNull_out_of_range (FM : FloatModel) (db : Database)
    (table_name column_name : String) (t : Table) (idx : Nat) (col : Column)
    (row_idx : Nat)
    (hget : db.getTable table_name = .ok t)
    (hidx : columnIndexOfName t.recordBatch.schema column_name = some idx)
    (hcol : t.recordBatch.columns.get? idx = some col)
    (hrow : row_idx ≥ col.len) :
    isColumnNull db table_name column_name row_idx = .ok true ∧
    evaluateWhereCondition FM db (.isNull (.column column_name))
      table_name row_idx = .ok true ∧
    evaluateWhereCondition FM db (.isNotNull (.column column_name))
      table_name row_idx = .ok false := by
  have h1 : isColumnNull db table_name column_name row_idx = .ok true := by
    have hcol2 : t.recordBatch.columns[idx]? = some col := by
      simpa [List.get?_eq_getElem?] using hcol
    simp [isColumnNull, hget, hidx, hcol2, hrow]
  exact ⟨h1, by simp [evaluateWhereCondition, h1],
    by simp [evaluateWhereCondition, h1]⟩

/-- C10 witness: row index 7 of the 4-row users id column. -/
theorem isColumnNull_out_of_range_witness :
    (sampleDb.getTable "users" = .ok usersTable ∧
     columnIndexOfName usersTable.recordBatch.schema "id" = some 0 ∧
     usersTable.recordBatch.columns.get? 0 =
       some (Column.int32 [some 1, some 2, some 3, some 4]) ∧
     7 ≥ (Column.int32 [some 1, some 2, some 3, some 4]).len) ∧
    (isColumnNull sampleDb "users" "id" 7 = .ok true ∧
     evaluateWhereCondition trivialFloatModel sampleDb
       (.isNull (.column "id")) "users" 7 = .ok true ∧
     evaluateWhereCondition trivialFloatModel sampleDb
       (.isNotNull (.column "id")) "users" 7 = .ok false) :=
  ⟨⟨by rfl, by rfl, by rfl, by decide⟩,
   isColumnNull_out_of_range trivialFloatModel sampleDb "users" "id"
     usersTable 0 (Column.int32 [some 1, some 2, some 3, some 4]) 7
     (by rfl) (by rfl) (by rfl) (by decide)⟩

/-- C3 counterexample: on a fixed-width column, update with two incoming
elements does not fail as the claim requires; it succeeds, and it also
overwrites the element after the row index. -/
theorem update_length_two_succeeds :
    setColumnData true ([1, 2, 3] : List Int) 0 (SetKind.update [9, 8]) =
      .ok [9, 8, 2] := by
  rfl

/-- C3 amended: the Utf8 arm of update_column_data requires exactly one
incoming element (DataType error otherwise) and, on a column without
nulls, replaces only the element at the row index; the fixed-width arm
enforces no length requirement: incoming data of length zero fails with
ArrayData, and nonempty data is spliced in place of the element at the
row index with the buffer truncated to the original length, so that a
single element replaces exactly the element at the row index and longer
data additionally overwrites the following elements. -/
theorem updateColumnData_amended {α : Type} :
    (∀ (existing : List (Option String)) (row_index : Nat)
      (new_data : List (Option String)), new_data.length ≠ 1 →
      updateStringColumnData existing row_index new_data =
        errDb (.dataType "Update data must contain exactly one element")) ∧
    (∀ (existing : List (Option String)) (row_index : Nat) (v : String),
      row_index < existing.length → (∀ x ∈ existing, x.isSome = true) →
      updateStringColumnData existing row_index [some v] =
        .ok (existing.set row_index (some v))) ∧
    (∀ (column : List α) (row_index : Nat) (d : List α),
      row_index < column.length → d ≠ [] →
      setColumnData true column row_index (SetKind.update d) =
        .ok ((column.take row_index ++ d ++ column.drop (row_index + 1)).take
          column.length)) ∧
    (∀ (column : List α) (row_index : Nat),
      row_index < column.length →
      setColumnData true column row_index (SetKind.update ([] : List α)) =
        errDb (.arrayData "Error building data: buffer smaller than array length")) ∧
    (∀ (column : List α) (row_index : Nat) (x : α),
      row_index < column.length →
      setColumnData true column row_index (SetKind.update [x]) =
        .ok (column.set row_index x)) := by
  have hfix : ∀ (column : List α) (row_index : Nat) (d : List α),
      row_index < column.length → d ≠ [] →
      setColumnData true column row_index (SetKind.update d) =
        .ok ((column.take row_index ++ d ++ column.drop (row_index + 1)).take
          column.length) := by
    intro column row_index d hrow hd
    have hlen : column.length ≠ 0 := by omega
    have htail : ¬ (column.drop row_index).length < 1 := by
      simp only [List.length_drop]
      omega
    have hdd : (column.drop row_index).drop 1 = column.drop (row_index + 1) := by
      rw [List.drop_drop, Nat.add_comm]
    have hbuf : ¬ (column.take row_index ++ d ++
        column.drop (row_index + 1)).length < column.length := by
      simp only [List.length_append, List.length_take, List.length_drop]
      have : 1 ≤ d.length := List.length_pos.mpr hd
      omega
    simp only [setColumnData, SetKind.isRemove, SetKind.getData]
    rw [if_neg (by simp [hlen])]
    simp only [if_neg hlen, if_neg (by decide : ¬ (true = false)),
      if_neg (by omega : ¬ row_index > column.length), if_neg htail, hdd]
    rw [if_neg hbuf]
  refine ⟨?_, ?_, hfix, ?_, ?_⟩
  · intro existing row_index new_data hne
    simp [updateStringColumnData, hne]
  · intro existing row_index v hrow hsome
    have hstep : updateStringColumnData existing row_index [some v] =
        .ok ((List.range existing.length).map (fun i =>
          if i = row_index then some v else some (stringValueAt existing i))) := by
      rfl
    rw [hstep]
    congr 1
    apply List.ext_getElem?
    intro i
    rw [List.getElem?_map]
    rcases Nat.lt_or_ge i existing.length with hi | hi
    · rw [List.getElem?_range hi]
      by_cases hieq : i = row_index
      · subst hieq
        simp [stringValueAt, List.getElem?_set, hi, hrow]
      · have hv : ∃ s, existing[i]? = some (some s) := by
          rcases hx : existing[i]? with _ | oo
          · rw [List.getElem?_eq_none_iff] at hx
            omega
          · rcases oo with _ | ss
            · have hmem : (none : Option String) ∈ existing :=
                List.getElem?_mem hx
              have := hsome _ hmem
              simp at this
            · exact ⟨ss, rfl⟩
        rcases hv with ⟨s, hs⟩
        rw [List.getElem?_set_ne (fun h => hieq h.symm), hs]
        simp [stringValueAt, hieq, hs]
    · have h1 : (List.range existing.length)[i]? = none :=
        List.getElem?_eq_none (by simpa using hi)
      have h2 : (existing.set row_index (some v))[i]? = none :=
        List.getElem?_eq_none (by simpa using hi)
      rw [h1, h2]
      rfl
  · intro column row_index hrow
    have hlen : column.length ≠ 0 := by omega
    have htail : ¬ (column.drop row_index).length < 1 := by
      simp only [List.length_drop]
      omega
    have hbuf : (column.take row_index ++ ([] : List α) ++
        column.drop (row_index + 1)).length < column.length := by
      simp only [List.length_append, List.length_take, List.length_drop,
        List.length_nil]
      omega
    have hdd : (column.drop row_index).drop 1 = column.drop (row_index + 1) := by
      rw [List.drop_drop, Nat.add_comm]
    simp only [setColumnData, SetKind.isRemove, SetKind.getData]
    rw [if_neg (by simp [hlen])]
    simp only [if_neg hlen, if_neg (by decide : ¬ (true = false)),
      if_neg (by omega : ¬ row_index > column.length), if_neg htail, hdd]
    rw [if_pos hbuf]
  · intro column row_index x hrow
    rw [hfix column row_index [x] hrow (by simp)]
    congr 1
    rw [List.append_assoc, List.singleton_append,
      ← List.set_eq_take_cons_drop x hrow]
    exact List.take_of_length_le (by simp)


/-- C3 witness: each part of the amended update property evaluated at a
concrete column. -/
theorem updateColumnData_amended_witness :
    (([some "x", some "y"] : List (Option String)).length ≠ 1 ∧
     updateStringColumnData [some "a", some "b"] 0 [some "x", some "y"] =
       errDb (.dataType "Update data must contain exactly one element")) ∧
    (1 < ([some "a", some "b"] : List (Option String)).length ∧
     updateStringColumnData [some "a", some "b"] 1 [some "x"] =
       .ok (([some "a", some "b"] : List (Option String)).set 1 (some "x"))) ∧
    (1 < ([10, 20, 30] : List Int).length ∧
     setColumnData true ([10, 20, 30] : List Int) 1 (SetKind.update [7, 8]) =
       .ok ((([10, 20, 30] : List Int).take 1 ++ [7, 8] ++
         ([10, 20, 30] : List Int).drop (1 + 1)).take
           ([10, 20, 30] : List Int).length)) ∧
    (setColumnData true ([10, 20, 30] : List Int) 1
       (SetKind.update ([] : List Int)) =
       errDb (.arrayData "Error building data: buffer smaller than array length")) ∧
    (setColumnData true ([10, 20, 30] : List Int) 1 (SetKind.update [7]) =
       .ok (([10, 20, 30] : List Int).set 1 7)) :=
  ⟨⟨by decide, (updateColumnData_amended (α := Int)).1 _ _ _ (by decide)⟩,
   ⟨by decide, (updateColumnData_amended (α := Int)).2.1 _ _ _ (by decide)
     (by decide)⟩,
   ⟨by decide, (updateColumnData_amended (α := Int)).2.2.1 _ _ _ (by decide)
     (by decide)⟩,
   (updateColumnData_amended (α := Int)).2.2.2.1 _ _ (by decide),
   (updateColumnData_amended (α := Int)).2.2.2.2 _ _ _ (by decide)⟩

/-- C4 counterexample: Delete (Remove) of row index 5 on a non-empty
two-element column neither returns ColumnIndexOutOfBounds nor any other
DbError; it is an out-of-bounds panic inside the buffer splice. -/
theorem remove_out_of_range_panics :
    setColumnData true ([1, 2] : List Int) 5 (SetKind.remove : SetKind Int) =
      .error (.panic "split_at mid out of bounds") ∧
    isDbErr (setColumnData true ([1, 2] : List Int) 5
      (SetKind.remove : SetKind Int)) = false :=
  ⟨rfl, rfl⟩

/-- C4 amended: the column kernel never validates row_index.  On a
non-empty column, Insert with row_index above the length, and Update or
Delete with row_index at or above the length, panic in the buffer
splice rather than returning ColumnIndexOutOfBounds; Append computes
its own insertion point and always succeeds on a width-ful column; the
ColumnIndexOutOfBounds error is produced only by add_column when its
column index exceeds the schema's field count. -/
theorem rowIndex_not_validated {α : Type} :
    (∀ (column : List α) (row_index : Nat) (d : List α),
      column ≠ [] → row_index > column.length →
      setColumnData true column row_index (SetKind.insertAt d) =
        .error (.panic "split_at mid out of bounds")) ∧
    (∀ (column : List α) (row_index : Nat) (d : List α),
      column ≠ [] → row_index ≥ column.length →
      isPanicErr (setColumnData true column row_index (SetKind.update d)) =
        true) ∧
    (∀ (column : List α) (row_index : Nat),
      column ≠ [] → row_index ≥ column.length →
      isPanicErr (setColumnData true column row_index
        (SetKind.remove : SetKind α)) = true) ∧
    (∀ (column d : List α),
      appendColumnData true column d = .ok (column ++ d)) ∧
    (∀ (t : Table) (column_index : Nat) (nm : String) (dt : DataTypeTag)
      (data : Column), column_index > t.recordBatch.schema.length →
      t.addColumn column_index nm dt data =
        .error (.db (.columnIndexOutOfBounds column_index t.name))) := by
  refine ⟨?_, ?_, ?_, ?_, ?_⟩
  · intro column row_index d hne hgt
    have hlen : column.length ≠ 0 := by
      simpa using List.length_pos.mpr hne |>.ne'
    simp only [setColumnData, SetKind.isRemove, SetKind.getData]
    rw [if_neg (by simp)]
    simp only [if_neg hlen, if_neg (by decide : ¬ (true = false)), if_pos hgt]
  · intro column row_index d hne hge
    have hlen : column.length ≠ 0 := by
      simpa using List.length_pos.mpr hne |>.ne'
    by_cases hgt : row_index > column.length
    · have hres : setColumnData true column row_index (SetKind.update d) =
          .error (.panic "split_at mid out of bounds") := by
        simp only [setColumnData, SetKind.isRemove, SetKind.getData]
        rw [if_neg (by simp)]
        simp only [if_neg hlen, if_neg (by decide : ¬ (true = false)),
          if_pos hgt]
      rw [hres]
      rfl
    · have heq : row_index = column.length := by omega
      have htail : (column.drop row_index).length < 1 := by
        simp [List.length_drop, heq]
      have hres : setColumnData true column row_index (SetKind.update d) =
          .error (.panic "slice index starts out of range") := by
        simp only [setColumnData, SetKind.isRemove, SetKind.getData]
        rw [if_neg (by simp)]
        simp only [if_neg hlen, if_neg (by decide : ¬ (true = false)),
          if_neg hgt, if_pos htail]
      rw [hres]
      rfl
  · intro column row_index hne hge
    have hlen : column.length ≠ 0 := by
      simpa using List.length_pos.mpr hne |>.ne'
    by_cases hgt : row_index > column.length
    · have hres : setColumnData true column row_index
          (SetKind.remove : SetKind α) =
          .error (.panic "split_at mid out of bounds") := by
        simp only [setColumnData, SetKind.isRemove, SetKind.getData]
        rw [if_neg (by simp [hlen])]
        simp only [if_neg hlen, if_neg (by decide : ¬ (true = false)),
          if_pos hgt]
      rw [hres]
      rfl
    · have heq : row_index = column.length := by omega
      have htail : (column.drop row_index).length < 1 := by
        simp [List.length_drop, heq]
      have hres : setColumnData true column row_index
          (SetKind.remove : SetKind α) =
          .error (.panic "slice index starts out of range") := by
        simp only [setColumnData, SetKind.isRemove, SetKind.getData]
        rw [if_neg (by simp [hlen])]
        simp only [if_neg hlen, if_neg (by decide : ¬ (true = false)),
          if_neg hgt, if_pos htail]
      rw [hres]
      rfl
  · intro column d
    rcases hc : column with _ | ⟨v, rest⟩
    · have : appendColumnData true ([] : List α) d = .ok (d.take d.length) := by
        simp [appendColumnData, insertColumnData, setColumnData,
          SetKind.isRemove, SetKind.getData]
      simpa using this
    · have hlen : (v :: rest).length ≠ 0 := by simp
      have htake : (v :: rest).take (v :: rest).length = v :: rest :=
        List.take_length _
      have hdrop : (v :: rest).drop (v :: rest).length = [] :=
        List.drop_length _
      have hres : appendColumnData true (v :: rest) d =
          .ok (((v :: rest) ++ d).take ((v :: rest).length + d.length)) := by
        simp only [appendColumnData, insertColumnData, setColumnData,
          SetKind.isRemove, SetKind.getData]
        rw [if_neg (by simp)]
        simp only [if_neg hlen, if_neg (by decide : ¬ (true = false)),
          if_neg (by omega : ¬ (v :: rest).length > (v :: rest).length),
          htake, hdrop, List.append_nil]
        rw [if_neg (by simp only [List.length_append, List.length_cons]; omega)]
      rw [hres]
      congr 1
      exact List.take_of_length_le
        (by simp only [List.length_append, List.length_cons]; omega)
  · intro t column_index nm dt data h
    simp [Table.addColumn, Table.columnIndexInBounds, if_pos h, errDb]

/-- C4 witness: the amended claim evaluated on concrete columns and a
concrete table. -/
theorem rowIndex_not_validated_witness :
    (([1, 2] : List Int) ≠ [] ∧ 3 > ([1, 2] : List Int).length ∧
     setColumnData true ([1, 2] : List Int) 3 (SetKind.insertAt [9]) =
       .error (.panic "split_at mid out of bounds")) ∧
    (2 ≥ ([1, 2] : List Int).length ∧
     isPanicErr (setColumnData true ([1, 2] : List Int) 2
       (SetKind.update [9])) = true) ∧
    (isPanicErr (setColumnData true ([1, 2] : List Int) 2
       (SetKind.remove : SetKind Int)) = true) ∧
    (appendColumnData true ([1, 2] : List Int) [3] = .ok [1, 2, 3]) ∧
    (usersTable.addColumn 9 "extra" .int32 (Column.int32 []) =
       .error (.db (.columnIndexOutOfBounds 9 usersTable.name))) :=
  ⟨⟨by decide, by decide,
    (rowIndex_not_validated (α := Int)).1 _ _ _ (by decide) (by decide)⟩,
   ⟨by decide,
    (rowIndex_not_validated (α := Int)).2.1 _ _ _ (by decide) (by decide)⟩,
   (rowIndex_not_validated (α := Int)).2.2.1 _ _ (by decide) (by decide),
   (rowIndex_not_validated (α := Int)).2.2.2.1 _ _,
   (rowIndex_not_validated (α := Int)).2.2.2.2 _ _ _ _ _ (by decide)⟩

/-- Helper: RecordBatch::try_new succeeds exactly on validated input. -/
theorem newRecordBatch_ok (schema : List Field) (columns : List Column)
    (h1 : columns ≠ [])
    (h2 : schema.length = columns.length)
    (h3 : ∀ c ∈ columns, c.len = (columns.headD (.int32 [])).len)
    (h4 : ∀ p ∈ schema.zip columns,
      p.1.dataType = p.2.dataType ∧ (p.1.nullable = true ∨ p.2.nullCount = 0)) :
    newRecordBatch schema columns = .ok { schema := schema, columns := columns } := by
  unfold newRecordBatch
  rw [if_neg (by simpa using h1), if_neg (by simp [h2])]
  rw [if_neg (by
    simp only [List.any_eq_true, not_exists, not_and]
    intro c hc
    simpa using h3 c hc)]
  rw [if_neg (by
    simp only [List.any_eq_true, not_exists, not_and]
    intro p hp
    simpa using (h4 p hp).1)]
  rw [if_neg (by
    simp only [List.any_eq_true, not_exists, not_and]
    intro p hp
    rcases (h4 p hp).2 with h | h <;> simp [h])]

/-- C5 counterexample: adding a column at in-range index 0 of a
one-column table places the new column at the end of the column list,
not at position 0 (position 0 still holds the old column). -/
theorem addColumn_places_column_at_end :
    (Table.addColumn
      { name := "t"
        recordBatch :=
          { schema := [{ name := "a", dataType := .int32, nullable := true }]
            columns := [Column.int32 [some 1, some 2]] } }
      0 "b" .int32 (Column.int32 [some 10, some 20])) =
      .ok { name := "t"
            recordBatch :=
              { schema := [{ name := "b", dataType := .int32, nullable := true },
                           { name := "a", dataType := .int32, nullable := true }]
                columns := [Column.int32 [some 1, some 2],
                            Column.int32 [some 10, some 20]] } } ∧
    Column.int32 [some 1, some 2] ≠ Column.int32 [some 10, some 20] :=
  ⟨rfl, by decide⟩

/-- C5 amended: add_column rejects an out-of-range index (one greater
than the schema field count) with ColumnIndexOutOfBounds; it inserts the
new field at schema position i but appends the new column at the end of
the column list, and the call succeeds only when batch validation
accepts the resulting position-by-position alignment — in particular
always when i equals the current column count, in which case both the
field and the column land at position i; on any success the schema's
type tags match the columns' runtime type tags position by position. -/
theorem addColumn_amended :
    (∀ (t : Table) (ci : Nat) (nm : String) (dt : DataTypeTag) (data : Column),
      ci > t.recordBatch.schema.length →
      t.addColumn ci nm dt data =
        .error (.db (.columnIndexOutOfBounds ci t.name))) ∧
    (∀ (t : Table) (ci : Nat) (nm : String) (dt : DataTypeTag)
      (data : Column) (t2 : Table), t.addColumn ci nm dt data = .ok t2 →
      t2.recordBatch.schema =
        t.recordBatch.schema.insertIdx ci
          { name := nm, dataType := dt, nullable := true } ∧
      t2.recordBatch.columns = t.recordBatch.columns ++ [data] ∧
      (∀ p ∈ t2.recordBatch.schema.zip t2.recordBatch.columns,
        p.1.dataType = p.2.dataType)) ∧
    (∀ (t : Table) (nm : String) (dt : DataTypeTag) (data : Column),
      WellFormed t → data.dataType = dt →
      (∀ c ∈ t.recordBatch.columns, c.len = data.len) →
      t.addColumn t.recordBatch.columns.length nm dt data =
        .ok { t with recordBatch :=
          { schema := t.recordBatch.schema ++
              [{ name := nm, dataType := dt, nullable := true }]
            columns := t.recordBatch.columns ++ [data] } } ∧
      (t.recordBatch.schema ++
          [{ name := nm, dataType := dt, nullable := true }])[t.recordBatch.columns.length]? =
        some { name := nm, dataType := dt, nullable := true } ∧
      (t.recordBatch.columns ++ [data])[t.recordBatch.columns.length]? =
        some data) := by
  refine ⟨?_, ?_, ?_⟩
  · intro t ci nm dt data h
    simp [Table.addColumn, Table.columnIndexInBounds, if_pos h, errDb]
  · intro t ci nm dt data t2 h
    by_cases hci : ci > t.recordBatch.schema.length
    · simp [Table.addColumn, Table.columnIndexInBounds, if_pos hci, errDb] at h
    · have hbounds : t.columnIndexInBounds ci = .ok () := by
        unfold Table.columnIndexInBounds
        rw [if_neg hci]
      simp only [Table.addColumn, hbounds] at h
      rcases hn : newRecordBatch
          (List.insertIdx ci { name := nm, dataType := dt, nullable := true }
            t.recordBatch.schema)
          (t.recordBatch.columns ++ [data]) with e | rb
      · rw [hn] at h
        exact absurd h (by simp)
      · rw [hn] at h
        simp only [Except.ok.injEq] at h
        have hrb : rb.schema =
            t.recordBatch.schema.insertIdx ci
              { name := nm, dataType := dt, nullable := true } ∧
            rb.columns = t.recordBatch.columns ++ [data] ∧
            (∀ p ∈ rb.schema.zip rb.columns, p.1.dataType = p.2.dataType) := by
          unfold newRecordBatch at hn
          by_cases c1 : (t.recordBatch.columns ++ [data]).isEmpty
          · rw [if_pos c1] at hn
            exact absurd hn (by simp [errDb])
          · rw [if_neg c1] at hn
            by_cases c2 : (List.insertIdx ci
                { name := nm, dataType := dt, nullable := true }
                t.recordBatch.schema).length ≠
                (t.recordBatch.columns ++ [data]).length
            · rw [if_pos c2] at hn
              exact absurd hn (by simp [errDb])
            · rw [if_neg c2] at hn
              by_cases c3 : ((t.recordBatch.columns ++ [data]).any (fun c =>
                  c.len ≠ ((t.recordBatch.columns ++ [data]).headD
                    (.int32 [])).len))
              · rw [if_pos c3] at hn
                exact absurd hn (by simp [errDb])
              · rw [if_neg c3] at hn
                by_cases c4 : (((List.insertIdx ci
                    { name := nm, dataType := dt, nullable := true }
                    t.recordBatch.schema).zip
                    (t.recordBatch.columns ++ [data])).any (fun p =>
                      p.1.dataType ≠ p.2.dataType))
                · rw [if_pos c4] at hn
                  exact absurd hn (by simp [errDb])
                · rw [if_neg c4] at hn
                  by_cases c5 : (((List.insertIdx ci
                      { name := nm, dataType := dt, nullable := true }
                      t.recordBatch.schema).zip
                      (t.recordBatch.columns ++ [data])).any (fun p =>
                        !p.1.nullable && p.2.nullCount ≠ 0))
                  · rw [if_pos c5] at hn
                    exact absurd hn (by simp [errDb])
                  · rw [if_neg c5] at hn
                    cases hn
                    refine ⟨rfl, rfl, ?_⟩
                    intro p hp
                    simp only [List.any_eq_true, not_exists, not_and] at c4
                    simpa using c4 p hp
        rw [← h]
        exact hrb
  · intro t nm dt data hwf hdt hlen
    rcases hwf with ⟨hw1, hw2, hw3⟩
    have hins : t.recordBatch.schema.insertIdx t.recordBatch.columns.length
        { name := nm, dataType := dt, nullable := true } =
        t.recordBatch.schema ++
          [{ name := nm, dataType := dt, nullable := true }] := by
      rw [← hw1]
      exact List.insertIdx_length_self _ _
    have hbounds : t.columnIndexInBounds t.recordBatch.columns.length =
        .ok () := by
      unfold Table.columnIndexInBounds
      rw [if_neg (by omega)]
    have hval3 : ∀ c ∈ t.recordBatch.columns ++ [data],
        c.len = ((t.recordBatch.columns ++ [data]).headD (.int32 [])).len := by
      intro c hc
      have hcl : c.len = data.len := by
        rcases List.mem_append.mp hc with h | h
        · exact hlen c h
        · simp only [List.mem_singleton] at h
          rw [h]
      rcases hcols : t.recordBatch.columns with _ | ⟨c0, rest⟩
      · simp only [hcols, List.nil_append, List.headD_cons]
        rw [hcl]
      · have h0 : c0.len = data.len := hlen c0 (by
          rw [hcols]
          exact List.mem_cons_self _ _)
        simp only [hcols, List.cons_append, List.headD_cons]
        rw [hcl, h0]
    have hval4 : ∀ p ∈ (t.recordBatch.schema ++
        [({ name := nm, dataType := dt, nullable := true } : Field)]).zip
          (t.recordBatch.columns ++ [data]),
        p.1.dataType = p.2.dataType ∧
          (p.1.nullable = true ∨ p.2.nullCount = 0) := by
      intro p hp
      rw [List.zip_append (by simpa using hw1)] at hp
      rcases List.mem_append.mp hp with h | h
      · exact hw3 p h
      · simp only [List.zip_cons_cons, List.zip_nil_right,
          List.mem_singleton] at h
        rw [h]
        exact ⟨hdt.symm, Or.inl rfl⟩
    have hnrb : newRecordBatch
        (t.recordBatch.schema ++
          [{ name := nm, dataType := dt, nullable := true }])
        (t.recordBatch.columns ++ [data]) =
        .ok { schema := t.recordBatch.schema ++
                [{ name := nm, dataType := dt, nullable := true }]
              columns := t.recordBatch.columns ++ [data] } :=
      newRecordBatch_ok _ _ (by simp) (by simp [hw1]) hval3 hval4
    have hok : t.addColumn t.recordBatch.columns.length nm dt data =
        .ok { t with recordBatch :=
          { schema := t.recordBatch.schema ++
              [{ name := nm, dataType := dt, nullable := true }]
            columns := t.recordBatch.columns ++ [data] } } := by
      simp only [Table.addColumn, hbounds, hins, hnrb]
    refine ⟨hok, ?_, ?_⟩
    · rw [← hw1, List.getElem?_append_right (le_refl _)]
      simp
    · rw [List.getElem?_append_right (le_refl _)]
      simp

/-- C5 witness: the amended add_column property evaluated on the users
table — rejection at index 9, and an append at index 2 placing both the
field and the column at position 2. -/
theorem addColumn_amended_witness :
    (9 > usersTable.recordBatch.schema.length ∧
     usersTable.addColumn 9 "extra" .int32 (Column.int32 []) =
       .error (.db (.columnIndexOutOfBounds 9 usersTable.name))) ∧
    (WellFormed usersTable ∧
     usersTable.addColumn usersTable.recordBatch.columns.length "flag" .boolean
         (Column.boolean [some true, some false, some true, some false]) =
       .ok { usersTable with recordBatch :=
         { schema := usersTable.recordBatch.schema ++
             [{ name := "flag", dataType := .boolean, nullable := true }]
           columns := usersTable.recordBatch.columns ++
             [Column.boolean [some true, some false, some true, some false]] } } ∧
     (usersTable.recordBatch.schema ++
         [({ name := "flag", dataType := .boolean, nullable := true } :
           Field)])[usersTable.recordBatch.columns.length]? =
       some { name := "flag", dataType := .boolean, nullable := true } ∧
     (usersTable.recordBatch.columns ++
         [Column.boolean [some true, some false, some true,
           some false]])[usersTable.recordBatch.columns.length]? =
       some (Column.boolean [some true, some false, some true, some false])) :=
  ⟨⟨by decide, addColumn_amended.1 usersTable 9 "extra" .int32
      (Column.int32 []) (by decide)⟩,
   by
     have h := addColumn_amended.2.2 usersTable "flag" .boolean
       (Column.boolean [some true, some false, some true, some false])
       (by unfold WellFormed; decide) rfl (by decide)
     exact ⟨by unfold WellFormed; decide, h.1, h.2.1, h.2.2⟩⟩

/-- Helper: scalar_values_equal is false whenever the column side is
missing (NULL, out of range, or unextractable). -/
theorem scalarValuesEqual_none (FM : FloatModel) (b : ScalarValue) :
    scalarValuesEqual FM none b = false := by
  cases b <;> rfl

/-- Helper: a NULL result of get_column_value pins down the resolved
table, column index and column, and forces the typed extraction at that
row to be empty. -/
theorem getColumnValue_none_parts (db : Database) (tn cn : String) (row : Nat)
    (hnull : getColumnValue db tn cn row = .ok none) :
    ∃ t idx col, db.getTable tn = .ok t ∧
      columnIndexOfName t.recordBatch.schema cn = some idx ∧
      t.recordBatch.columns[idx]? = some col ∧
      col.scalarAt row = none := by
  rcases hget : db.getTable tn with e | t
  · have : getColumnValue db tn cn row = .error e := by
      simp [getColumnValue, hget]
    rw [this] at hnull
    exact absurd hnull (by simp)
  · rcases hidx : columnIndexOfName t.recordBatch.schema cn with _ | idx
    · have : getColumnValue db tn cn row =
          errDb (.query ("Column " ++ cn ++ " not found") "") := by
        simp [getColumnValue, hget, hidx]
      rw [this] at hnull
      exact absurd hnull (by simp [errDb])
    · rcases hcol : t.recordBatch.columns[idx]? with _ | col
      · have : getColumnValue db tn cn row =
            .error (.panic "RecordBatch::column index out of bounds") := by
          simp [getColumnValue, hget, hidx, hcol]
        rw [this] at hnull
        exact absurd hnull (by simp)
      · refine ⟨t, idx, col, rfl, hidx, hcol, ?_⟩
        by_cases h1 : row ≥ col.len
        · cases col <;>
            simp_all [Column.scalarAt, Column.len, List.get?_eq_getElem?,
              List.getElem?_eq_none]
        · by_cases h2 : col.isNull row
          · cases col <;>
              simp_all [Column.scalarAt, Column.isNull,
                Option.isNone_iff_eq_none]
          · have : getColumnValue db tn cn row = .ok (col.scalarAt row) := by
              simp [getColumnValue, hget, hidx, hcol, h1, h2]
            rw [this] at hnull
            simpa using hnull

/-- Helper: if the typed extraction of an optional slot is empty, the
slot read is either out of range or null. -/
theorem optionSlot_none_cases {β : Type} (vs : List (Option β)) (row : Nat)
    (h : (vs.get? row).getD none = none) :
    vs.get? row = none ∨ vs.get? row = some none := by
  rcases hr : vs.get? row with _ | oo
  · exact Or.inl rfl
  · rcases oo with _ | b
    · exact Or.inr rfl
    · rw [hr] at h
      simp at h

/-- Helper: the typed comparison dispatch yields false whenever the
typed extraction at the row is empty (NULL, out of range, or a type the
evaluator does not extract). -/
theorem checkColumnComparisonTyped_null (FM : FloatModel) (row : Nat)
    (v : ScalarValue) (op : Operator) (col : Column)
    (hsc : col.scalarAt row = none) :
    checkColumnComparisonTyped FM row v op col = false := by
  cases col <;> cases v <;>
    first
      | rfl
      | (rename_i vs o
         first
           | rfl
           | (cases o
              · rfl
              · first
                  | rfl
                  | (rcases optionSlot_none_cases vs row
                        (Option.map_eq_none'.mp hsc) with h | h <;>
                      simp only [checkColumnComparisonTyped, h])))

/-- Helper: a comparison of a NULL (or unextractable) column value
against any literal yields false. -/
theorem checkColumnComparison_null (FM : FloatModel) (db : Database)
    (tn cn : String) (row : Nat) (v : ScalarValue) (op : Operator)
    (hnull : getColumnValue db tn cn row = .ok none) :
    checkColumnComparison FM db tn cn row v op = .ok false := by
  rcases getColumnValue_none_parts db tn cn row hnull with
    ⟨t, idx, col, hget, hidx, hcol, hsc⟩
  have : checkColumnComparison FM db tn cn row v op =
      .ok (checkColumnComparisonTyped FM row v op col) := by
    simp [checkColumnComparison, hget, hidx, hcol]
  rw [this, checkColumnComparisonTyped_null FM row v op col hsc]

/-- C1 counterexample: a NOT IN predicate whose operand column value is
NULL at the evaluated row returns true, not false as the claim states
(the negation of the not-found membership). -/
theorem notIn_null_returns_true :
    evaluateWhereCondition trivialFloatModel nullDb
      (.inList (.column "a") [.literal (.int32 (some 1))] true) "t" 0 =
      .ok true :=
  rfl

/-- C1 amended: for a WHERE predicate whose operand column value is NULL
at the evaluated row (get_column_value yields none), binary comparisons,
IN, LIKE and NOT LIKE evaluate to false — but NOT IN evaluates to true,
the negation of the failed membership test. -/
theorem null_operand_evaluation (FM : FloatModel) (db : Database)
    (table_name column_name : String) (row_idx : Nat)
    (hnull : getColumnValue db table_name column_name row_idx = .ok none) :
    (∀ (op : Operator) (v : ScalarValue),
      op = .eq ∨ op = .notEq ∨ op = .lt ∨ op = .ltEq ∨ op = .gt ∨
        op = .gtEq →
      evaluateWhereCondition FM db
        (.binary (.column column_name) op (.literal v)) table_name row_idx =
        .ok false) ∧
    (∀ list : List Expr,
      evaluateWhereCondition FM db (.inList (.column column_name) list false)
        table_name row_idx = .ok false) ∧
    (∀ list : List Expr,
      evaluateWhereCondition FM db (.inList (.column column_name) list true)
        table_name row_idx = .ok true) ∧
    (∀ (negated : Bool) (pat : String),
      evaluateWhereCondition FM db
        (.like negated (.column column_name) (.literal (.utf8 (some pat))))
        table_name row_idx = .ok false) := by
  have hfound : ∀ list : List Expr,
      (list.any fun list_expr =>
        match extractScalarValue list_expr with
        | some list_value => scalarValuesEqual FM none list_value
        | none => false) = false := by
    intro list
    rw [List.any_eq_false]
    intro le hle
    rcases he : extractScalarValue le with _ | lv
    · simp
    · simp [scalarValuesEqual_none]
  refine ⟨?_, ?_, ?_, ?_⟩
  · intro op v hop
    have hcc := checkColumnComparison_null FM db table_name column_name
      row_idx v op hnull
    rcases hop with rfl | rfl | rfl | rfl | rfl | rfl <;> exact hcc
  · intro list
    rw [evaluateWhereCondition, hnull]
    exact congrArg Except.ok (hfound list)
  · intro list
    rw [evaluateWhereCondition, hnull]
    refine congrArg Except.ok ?_
    rw [hfound list]
    decide
  · intro negated pat
    rw [evaluateWhereCondition, hnull]

/-- C1 witness: the amended property evaluated on a table whose single
Int32 column is NULL at row 0. -/
theorem null_operand_evaluation_witness :
    (getColumnValue nullDb "t" "a" 0 = .ok none) ∧
    evaluateWhereCondition trivialFloatModel nullDb
      (.binary (.column "a") .eq (.literal (.int32 (some 1)))) "t" 0 =
      .ok false ∧
    evaluateWhereCondition trivialFloatModel nullDb
      (.inList (.column "a") [.literal (.int32 (some 1))] false) "t" 0 =
      .ok false ∧
    evaluateWhereCondition trivialFloatModel nullDb
      (.like false (.column "a") (.literal (.utf8 (some "A%")))) "t" 0 =
      .ok false ∧
    evaluateWhereCondition trivialFloatModel nullDb
      (.like true (.column "a") (.literal (.utf8 (some "A%")))) "t" 0 =
      .ok false :=
  ⟨rfl,
   (null_operand_evaluation trivialFloatModel nullDb "t" "a" 0 rfl).1 .eq
     (.int32 (some 1)) (Or.inl rfl),
   (null_operand_evaluation trivialFloatModel nullDb "t" "a" 0 rfl).2.1
     [.literal (.int32 (some 1))],
   (null_operand_evaluation trivialFloatModel nullDb "t" "a" 0 rfl).2.2.2
     false "A%",
   (null_operand_evaluation trivialFloatModel nullDb "t" "a" 0 rfl).2.2.2
     true "A%"⟩

/-- Helper: reading every index of a list through get? reproduces the
list. -/
theorem map_range_get {γ : Type} (d : γ) (l : List γ) :
    (List.range l.length).map (fun j => (l.get? j).getD d) = l := by
  apply List.ext_getElem?
  intro n
  rw [List.getElem?_map]
  rcases Nat.lt_or_ge n l.length with h | h
  · rw [List.getElem?_range h]
    simp [List.get?_eq_getElem?, List.getElem?_eq_getElem h]
  · rw [List.getElem?_eq_none (by simpa using h),
      List.getElem?_eq_none (by simpa using h)]
    rfl

/-- Helper: filtering a successor-mapped index list commutes with
filtering the shifted predicate. -/
theorem filter_map_succ (p : Nat → Bool) :
    ∀ L : List Nat,
      (L.map Nat.succ).filter p = (L.filter (fun j => p (j + 1))).map Nat.succ := by
  intro L
  induction L with
  | nil => rfl
  | cons a L ih =>
    simp only [List.map_cons, List.filter_cons]
    by_cases h : p (a + 1) = true
    · simpa [h] using ih
    · simpa [h] using ih

/-- Helper: reading the non-deleted indices of a list reproduces the
list with the element at the deleted index erased. -/
theorem map_range_filter_get {γ : Type} (d : γ) :
    ∀ (l : List γ) (i : Nat), i < l.length →
      ((List.range l.length).filter (fun j => j ≠ i)).map
        (fun j => (l.get? j).getD d) = l.eraseIdx i := by
  intro l
  induction l with
  | nil =>
    intro i hi
    simp at hi
  | cons v rest ih =>
    intro i hi
    rw [List.length_cons, List.range_succ_eq_map]
    rcases i with _ | k
    · rw [List.filter_cons_of_neg (by simp)]
      rw [filter_map_succ]
      rw [List.filter_eq_self.mpr (by
        intro a ha
        simp)]
      rw [List.map_map, List.eraseIdx_cons_zero]
      have hf : ((fun j => (List.get? (v :: rest) j).getD d) ∘ Nat.succ) =
          (fun j => (rest.get? j).getD d) :=
        funext (fun j => by simp [Function.comp])
      rw [hf]
      exact map_range_get d rest
    · rw [List.filter_cons_of_pos (by simp)]
      rw [filter_map_succ]
      have hq : (fun j => (decide (j + 1 ≠ k + 1) : Bool)) =
          (fun j => (decide (j ≠ k) : Bool)) :=
        funext (fun j => by simp)
      rw [hq]
      rw [List.map_cons, List.map_map, List.eraseIdx_cons_succ]
      have hf : ((fun j => (List.get? (v :: rest) j).getD d) ∘ Nat.succ) =
          (fun j => (rest.get? j).getD d) :=
        funext (fun j => by simp [Function.comp])
      rw [hf]
      simp only [List.get?_cons_zero, Option.getD_some]
      congr 1
      exact ih k (by simpa using hi)

/-- Helper: deleteRowValues on a column of the right length and an
in-range row index is exactly eraseIdx. -/
theorem deleteRowValues_eq_eraseIdx {β : Type} (vs : List (Option β))
    (i : Nat) (hi : i < vs.length) :
    deleteRowValues vs vs.length i = .ok (vs.eraseIdx i) := by
  have hmap : ∀ (I : List Nat), (∀ j ∈ I, j < vs.length) →
      (I.mapM (fun j =>
        match vs.get? j with
        | some v => Except.ok v
        | none =>
          (Except.error (RunError.panic "array value index out of bounds") :
            Except RunError (Option β)))) =
        .ok (I.map (fun j => (vs.get? j).getD none)) := by
    intro I
    induction I with
    | nil =>
      intro _
      rfl
    | cons j rest ih =>
      intro hb
      have hj : j < vs.length := hb j (List.mem_cons_self _ _)
      rcases hx : vs.get? j with _ | x
      · rw [List.get?_eq_getElem?] at hx
        rw [List.getElem?_eq_none_iff] at hx
        omega
      · rw [List.mapM_cons, hx]
        have hrest := ih (fun a ha => hb a (List.mem_cons_of_mem _ ha))
        rw [hrest]
        have hx2 : vs[j]? = some x := by
          rw [← List.get?_eq_getElem?]
          exact hx
        simp [hx2]
        rfl
  rw [deleteRowValues, hmap _ (by
    intro j hj
    exact List.mem_range.mp (List.mem_of_mem_filter hj))]
  rw [map_range_filter_get none vs i hi]

/-- Helper: eraseRow preserves the runtime type tag. -/
theorem dataType_eraseRow (c : Column) (i : Nat) :
    (c.eraseRow i).dataType = c.dataType := by
  cases c <;> rfl

/-- Helper: eraseRow of an in-range row shortens the column by one. -/
theorem len_eraseRow (c : Column) (i : Nat) (h : i < c.len) :
    (c.eraseRow i).len = c.len - 1 := by
  cases c <;> simp_all [Column.eraseRow, Column.len, List.length_eraseIdx]

/-- Helper: eraseRow of a null-free column stays null-free. -/
theorem nullCount_eraseRow (c : Column) (i : Nat) (h : c.nullCount = 0) :
    (c.eraseRow i).nullCount = 0 := by
  cases c <;>
    (rename_i vs
     simp only [Column.eraseRow, Column.nullCount] at h ⊢
     first
       | (have hs := List.Sublist.filter Option.isNone
            (List.eraseIdx_sublist vs i)
          have := List.Sublist.length_le hs
          omega)
       | (have hs := List.Sublist.filter (fun x => decide (x = true))
            (List.eraseIdx_sublist vs i)
          have := List.Sublist.length_le hs
          omega))

/-- Helper: a pointwise-successful mapM over Except collects the map. -/
theorem mapM_ok_of_pointwise {β γ : Type} (f : β → Except RunError γ)
    (g : β → γ) :
    ∀ (l : List β), (∀ c ∈ l, f c = .ok (g c)) → l.mapM f = .ok (l.map g) := by
  intro l
  induction l with
  | nil =>
    intro _
    rfl
  | cons c rest ih =>
    intro h
    rw [List.mapM_cons, h c (List.mem_cons_self _ _),
      ih (fun a ha => h a (List.mem_cons_of_mem _ ha))]
    rfl

/-- Helper: being a Query error does not depend on the success type. -/
theorem isQueryErr_retype {γ δ : Type} (e : RunError)
    (h : isQueryErr (.error e : Except RunError γ) = true) :
    isQueryErr (.error e : Except RunError δ) = true := by
  rcases e with edb | emsg
  · cases edb <;> simp [isQueryErr] at h ⊢
  · simp [isQueryErr] at h

/-- Helper: a mapM whose elements each succeed or fail with Query, with
at least one Query failure, fails with Query. -/
theorem mapM_isQueryErr {β γ : Type} (f : β → Except RunError γ) :
    ∀ (l : List β),
      (∀ c ∈ l, (∃ x, f c = .ok x) ∨ isQueryErr (f c) = true) →
      (∃ c ∈ l, isQueryErr (f c) = true) →
      isQueryErr (l.mapM f) = true := by
  intro l
  induction l with
  | nil =>
    intro _ hbad
    simp at hbad
  | cons c rest ih =>
    intro hok hbad
    rcases hfc : f c with e | x
    · have hqc : isQueryErr (f c) = true := by
        rcases hok c (List.mem_cons_self _ _) with ⟨x, hx⟩ | h
        · rw [hx] at hfc
          cases hfc
        · exact h
      rw [hfc] at hqc
      have hm : (c :: rest).mapM f = .error e := by
        rw [List.mapM_cons, hfc]
        rfl
      rw [hm]
      exact isQueryErr_retype e hqc
    · have hrest : ∃ a ∈ rest, isQueryErr (f a) = true := by
        rcases hbad with ⟨a, ha, hq⟩
        rcases List.mem_cons.mp ha with rfl | ha2
        · rw [hfc] at hq
          simp [isQueryErr] at hq
        · exact ⟨a, ha2, hq⟩
      have hq := ih (fun a ha => hok a (List.mem_cons_of_mem _ ha)) hrest
      rcases hm : rest.mapM f with e2 | xs
      · have hall : (c :: rest).mapM f = .error e2 := by
          rw [List.mapM_cons, hfc, hm]
          rfl
        rw [hall]
        rw [hm] at hq
        exact isQueryErr_retype e2 hq
      · rw [hm] at hq
        simp [isQueryErr] at hq

/-- Helper: the per-column DELETE reconstruction of a supported column
of the right length is exactly eraseIdx on its values. -/
theorem column_deleteRow_eq (c : Column) (n i : Nat)
    (hs : c.deleteSupported = true) (hlen : c.len = n) (hi : i < n) :
    c.deleteRow n i = .ok (c.eraseRow i) := by
  subst hlen
  cases c <;> simp_all [Column.deleteSupported, Column.len] <;>
    (rename_i vs
     rw [Column.deleteRow, deleteRowValues_eq_eraseIdx vs i (by assumption)]
     rfl)

/-- Helper: eraseRow preserves membership in the supported set. -/
theorem deleteSupported_eraseRow (c : Column) (i : Nat) :
    (c.eraseRow i).deleteSupported = c.deleteSupported := by
  cases c <;> rfl

/-- Helper: a table with rows has columns. -/
theorem columns_ne_nil_of_rows (t : Table) (row_idx : Nat)
    (hrow : row_idx < t.recordBatch.numRows) :
    t.recordBatch.columns ≠ [] := by
  intro h
  have : t.recordBatch.numRows = 0 := by
    simp [RecordBatch.numRows, h]
  omega

/-- Helper: delete_row on a well-formed table whose columns are all of
supported types removes exactly the requested row from every column. -/
theorem table_deleteRow_ok (t : Table) (row_idx : Nat)
    (hwf : WellFormed t) (hrow : row_idx < t.recordBatch.numRows)
    (hsup : ∀ c ∈ t.recordBatch.columns, c.deleteSupported = true) :
    t.deleteRow row_idx = .ok (tableEraseRow t row_idx) := by
  obtain ⟨hw1, hw2, hw3⟩ := hwf
  have hne := columns_ne_nil_of_rows t row_idx hrow
  have hmap : t.recordBatch.columns.mapM
      (fun c => c.deleteRow t.recordBatch.numRows row_idx) =
      .ok (t.recordBatch.columns.map (fun c => c.eraseRow row_idx)) :=
    mapM_ok_of_pointwise _ _ _
      (fun c hc => column_deleteRow_eq c _ row_idx (hsup c hc) (hw2 c hc) hrow)
  have hrb : newRecordBatch t.recordBatch.schema
      (t.recordBatch.columns.map (fun c => c.eraseRow row_idx)) =
      .ok { schema := t.recordBatch.schema
            columns := t.recordBatch.columns.map (fun c => c.eraseRow row_idx) } := by
    refine newRecordBatch_ok _ _ (by simpa using hne) (by simpa using hw1) ?_ ?_
    · intro c hc
      rcases List.mem_map.mp hc with ⟨c0, hc0, rfl⟩
      rcases hcols : t.recordBatch.columns with _ | ⟨ch, rest⟩
      · exact absurd hcols hne
      · have hch : ch ∈ t.recordBatch.columns := by
          rw [hcols]
          exact List.mem_cons_self _ _
        rw [List.map_cons, List.headD_cons]
        rw [len_eraseRow c0 row_idx (by rw [hw2 c0 hc0]; exact hrow)]
        rw [len_eraseRow ch row_idx (by rw [hw2 ch hch]; exact hrow)]
        rw [hw2 c0 hc0, hw2 ch hch]
    · intro p hp
      rw [List.zip_map_right] at hp
      rcases List.mem_map.mp hp with ⟨q, hq, rfl⟩
      rcases hw3 q hq with ⟨hdt, hnul⟩
      refine ⟨?_, ?_⟩
      · simpa [dataType_eraseRow] using hdt
      · rcases hnul with h | h
        · exact Or.inl h
        · exact Or.inr (by simpa using nullCount_eraseRow q.2 row_idx h)
  simp only [Table.deleteRow]
  rw [if_neg (by omega)]
  simp only [hmap, hrb]
  rfl

/-- Helper: removing an in-range row keeps the table well-formed, its
row count drops by one, and the supported set is unchanged. -/
theorem tableEraseRow_wf (t : Table) (row_idx : Nat) (hwf : WellFormed t)
    (hrow : row_idx < t.recordBatch.numRows) :
    WellFormed (tableEraseRow t row_idx) ∧
    (tableEraseRow t row_idx).recordBatch.numRows =
      t.recordBatch.numRows - 1 ∧
    (∀ c ∈ (tableEraseRow t row_idx).recordBatch.columns,
      c.deleteSupported = true ↔
        ∃ c0 ∈ t.recordBatch.columns, c0.deleteSupported = true ∧
          c = c0.eraseRow row_idx) := by
  obtain ⟨hw1, hw2, hw3⟩ := hwf
  have hne := columns_ne_nil_of_rows t row_idx hrow
  have hnum : (tableEraseRow t row_idx).recordBatch.numRows =
      t.recordBatch.numRows - 1 := by
    rcases hcols : t.recordBatch.columns with _ | ⟨ch, rest⟩
    · exact absurd hcols hne
    · have hch : ch ∈ t.recordBatch.columns := by
        rw [hcols]
        exact List.mem_cons_self _ _
      simp only [tableEraseRow, RecordBatch.numRows, hcols, List.map_cons]
      rw [len_eraseRow ch row_idx (by rw [hw2 ch hch]; exact hrow)]
  refine ⟨⟨by simpa [tableEraseRow] using hw1, ?_, ?_⟩, hnum, ?_⟩
  · intro c hc
    rcases List.mem_map.mp hc with ⟨c0, hc0, rfl⟩
    rw [hnum, len_eraseRow c0 row_idx (by rw [hw2 c0 hc0]; exact hrow),
      hw2 c0 hc0]
  · intro p hp
    simp only [tableEraseRow] at hp
    rw [List.zip_map_right] at hp
    rcases List.mem_map.mp hp with ⟨q, hq, rfl⟩
    rcases hw3 q hq with ⟨hdt, hnul⟩
    refine ⟨by simpa [dataType_eraseRow] using hdt, ?_⟩
    rcases hnul with h | h
    · exact Or.inl h
    · exact Or.inr (by simpa using nullCount_eraseRow q.2 row_idx h)
  · intro c hc
    rcases List.mem_map.mp hc with ⟨c0, hc0, rfl⟩
    constructor
    · intro hs
      exact ⟨c0, hc0, by rwa [deleteSupported_eraseRow] at hs, rfl⟩
    · rintro ⟨c1, _, hs1, heq⟩
      rw [heq, deleteSupported_eraseRow]
      exact hs1

/-- C2 counterexample: delete_row on a table whose single column is
Int64 — a member of the claim's supported set — fails with the Query
error instead of succeeding. -/
theorem deleteRow_int64_fails :
    int64Table.deleteRow 0 =
      .error (.db (.query "Unsupported data type for DELETE: Int64" "")) ∧
    (int64Table.deleteRow 0).isOk = false :=
  ⟨rfl, rfl⟩

/-- C2 amended: for a well-formed table and an in-range row index,
delete_row succeeds when every column's type tag is in the reconstructed
set Int32, Float32, Float64, Boolean, Date32, Utf8 — producing for each
column its elements with the requested row omitted and all null bits
preserved — while a table containing a column of any other type tag
(including Int64 and Date64) fails with the Query error. -/
theorem deleteRow_amended (t : Table) (row_idx : Nat)
    (hwf : WellFormed t) (hrow : row_idx < t.recordBatch.numRows) :
    ((∀ c ∈ t.recordBatch.columns, c.deleteSupported = true) →
      t.deleteRow row_idx = .ok { t with recordBatch :=
        { schema := t.recordBatch.schema
          columns := t.recordBatch.columns.map
            (fun c => c.eraseRow row_idx) } }) ∧
    ((∃ c ∈ t.recordBatch.columns, c.deleteSupported = false) →
      isQueryErr (t.deleteRow row_idx) = true) := by
  obtain ⟨hw1, hw2, hw3⟩ := hwf
  constructor
  · intro hsup
    exact table_deleteRow_ok t row_idx ⟨hw1, hw2, hw3⟩ hrow hsup
  · intro hbad
    have hq : isQueryErr (t.recordBatch.columns.mapM
        (fun c => c.deleteRow t.recordBatch.numRows row_idx)) = true := by
      refine mapM_isQueryErr _ _ ?_ ?_
      · intro c hc
        rcases hs : c.deleteSupported with _ | _
        · right
          cases c <;> simp_all [Column.deleteSupported] <;>
            rfl
        · left
          exact ⟨c.eraseRow row_idx,
            column_deleteRow_eq c _ row_idx hs (hw2 c hc) hrow⟩
      · rcases hbad with ⟨c, hc, hs⟩
        refine ⟨c, hc, ?_⟩
        cases c <;> simp_all [Column.deleteSupported] <;> rfl
    rcases hm : t.recordBatch.columns.mapM
        (fun c => c.deleteRow t.recordBatch.numRows row_idx) with e | cols
    · have hstep : t.deleteRow row_idx = .error e := by
        simp only [Table.deleteRow]
        rw [if_neg (by omega)]
        simp only [hm]
      rw [hstep]
      rw [hm] at hq
      exact isQueryErr_retype e hq
    · rw [hm] at hq
      simp [isQueryErr] at hq

/-- C2 witness: deleting row 1 of the users table (Int32 and Utf8
columns), and the Query failure on the Int64 table. -/
theorem deleteRow_amended_witness :
    (WellFormed usersTable ∧ 1 < usersTable.recordBatch.numRows ∧
     usersTable.deleteRow 1 = .ok { usersTable with recordBatch :=
       { schema := usersTable.recordBatch.schema
         columns := usersTable.recordBatch.columns.map
           (fun c => c.eraseRow 1) } }) ∧
    (WellFormed int64Table ∧ 0 < int64Table.recordBatch.numRows ∧
     isQueryErr (int64Table.deleteRow 0) = true) :=
  ⟨⟨by unfold WellFormed; decide, by decide,
    (deleteRow_amended usersTable 1 (by unfold WellFormed; decide)
      (by decide)).1 (by decide)⟩,
   ⟨by unfold WellFormed; decide, by decide,
    (deleteRow_amended int64Table 0 (by unfold WellFormed; decide)
      (by decide)).2 ⟨Column.int64 [some 1, some 2], by decide, rfl⟩⟩⟩

/-- Helper: deleting at shifted indices leaves the head untouched. -/
theorem foldl_eraseIdx_map_succ {γ : Type} (v : γ) :
    ∀ (L : List Nat) (rest : List γ),
      (L.map Nat.succ).foldl (fun acc k => acc.eraseIdx k) (v :: rest) =
        v :: L.foldl (fun acc k => acc.eraseIdx k) rest := by
  intro L
  induction L with
  | nil =>
    intro rest
    rfl
  | cons a L ih =>
    intro rest
    rw [List.map_cons, List.foldl_cons, List.foldl_cons,
      List.eraseIdx_cons_succ]
    exact ih _

/-- Helper: deleting the matching indices of a predicate in descending
order keeps exactly the non-matching elements, in order. -/
theorem erase_desc_filter {γ : Type} :
    ∀ (vs : List γ) (p : Nat → Bool),
      (((List.range vs.length).filter p).reverse).foldl
        (fun acc k => acc.eraseIdx k) vs = keepNonMatching p vs := by
  intro vs
  induction vs with
  | nil =>
    intro p
    rfl
  | cons v rest ih =>
    intro p
    rw [List.length_cons, List.range_succ_eq_map]
    by_cases h0 : p 0 = true
    · rw [List.filter_cons_of_pos h0, filter_map_succ, List.reverse_cons,
        List.foldl_append, ← List.map_reverse]
      rw [foldl_eraseIdx_map_succ]
      rw [List.foldl_cons, List.foldl_nil, List.eraseIdx_cons_zero]
      rw [keepNonMatching, if_pos h0]
      exact ih _
    · rw [List.filter_cons_of_neg h0, filter_map_succ,
        ← List.map_reverse]
      rw [foldl_eraseIdx_map_succ]
      rw [keepNonMatching, if_neg h0]
      rw [ih _]

/-- Helper: the column-level erase fold commutes with each constructor. -/
theorem foldl_eraseRow_comm {δ : Type} (mk : List δ → Column)
    (hmk : ∀ vs k, (mk vs).eraseRow k = mk (vs.eraseIdx k)) :
    ∀ (I : List Nat) (vs : List δ),
      I.foldl (fun col k => col.eraseRow k) (mk vs) =
        mk (I.foldl (fun l k => l.eraseIdx k) vs) := by
  intro I
  induction I with
  | nil =>
    intro vs
    rfl
  | cons a I ih =>
    intro vs
    rw [List.foldl_cons, hmk, List.foldl_cons]
    exact ih _

/-- Helper: descending deletion of the matching rows of a column is the
restriction of the column to non-matching rows. -/
theorem column_fold_eraseRow (p : Nat → Bool) (c : Column) :
    (((List.range c.len).filter p).reverse).foldl
      (fun col k => col.eraseRow k) c = c.keepRows p := by
  cases c <;>
    (rename_i vs
     simp only [Column.len]
     rw [foldl_eraseRow_comm _ (fun _ _ => rfl), erase_desc_filter vs p]
     rfl)

/-- Helper: a valid delete sequence stays valid at a larger capacity. -/
theorem validDeleteSeq_mono :
    ∀ (I : List Nat) (n m : Nat), ValidDeleteSeq I n → n ≤ m →
      ValidDeleteSeq I m := by
  intro I
  induction I with
  | nil =>
    intro n m _ _
    trivial
  | cons i I ih =>
    intro n m h hle
    obtain ⟨h1, h2⟩ := h
    exact ⟨by omega, ih (n - 1) (m - 1) h2 (by omega)⟩

/-- Helper: the reversed ascending matching-row list is a valid delete
sequence. -/
theorem validDeleteSeq_filter_rev (p : Nat → Bool) :
    ∀ n : Nat, ValidDeleteSeq (((List.range n).filter p).reverse) n := by
  intro n
  induction n with
  | zero => trivial
  | succ n ih =>
    rw [List.range_succ, List.filter_append, List.reverse_append]
    by_cases h : p n = true
    · rw [List.filter_cons_of_pos h, List.filter_nil]
      exact ⟨by omega, by simpa using ih⟩
    · rw [List.filter_cons_of_neg h, List.filter_nil, List.reverse_nil,
        List.nil_append]
      exact validDeleteSeq_mono _ n (n + 1) ih (by omega)

/-- Helper: a found table carries the looked-up name. -/
theorem getTable_ok_name (db : Database) (name : String) (t : Table)
    (h : db.getTable name = .ok t) : t.name = name := by
  unfold Database.getTable at h
  rcases hf : db.tables.find? (fun u => u.name = name) with _ | u
  · rw [hf] at h
    exact absurd h (by simp [errDb])
  · rw [hf] at h
    have := List.find?_some hf
    simp only [Except.ok.injEq] at h
    rw [← h]
    simpa using this

/-- Helper: replacing the named table does not change the name list. -/
theorem setTable_names (db : Database) (name : String) (t2 : Table)
    (ht2 : t2.name = name) :
    (db.setTable name t2).tables.map Table.name = db.tables.map Table.name := by
  simp only [Database.setTable, List.map_map]
  apply List.map_congr_left
  intro u _
  by_cases h : u.name = name
  · simp [Function.comp, h, ht2]
  · simp [Function.comp, h]

/-- Helper: looking up the name just replaced yields the new table. -/
theorem getTable_setTable (db : Database) (name : String) (t t2 : Table)
    (h : db.getTable name = .ok t) (ht2 : t2.name = name) :
    (db.setTable name t2).getTable name = .ok t2 := by
  unfold Database.getTable at h ⊢
  rcases hf : db.tables.find? (fun u => u.name = name) with _ | u
  · rw [hf] at h
    exact absurd h (by simp [errDb])
  · simp only [Database.setTable]
    have : ∀ l : List Table,
        l.find? (fun u => u.name = name) = some u →
        (l.map (fun w => if w.name = name then t2 else w)).find?
          (fun w => w.name = name) = some t2 := by
      intro l
      induction l with
      | nil =>
        intro hfind
        cases hfind
      | cons w rest ih =>
        intro hfind
        by_cases hw : w.name = name
        · rw [List.map_cons, List.find?_cons_of_pos _ (by simpa [hw] using ht2),
            if_pos hw]
        · rw [List.find?_cons_of_neg _ (by simpa using hw)] at hfind
          rw [List.map_cons, if_neg hw,
            List.find?_cons_of_neg _ (by simpa using hw)]
          exact ih hfind
    rw [this db.tables hf]

/-- Helper: two successive replacements collapse to the last one. -/
theorem setTable_setTable (db : Database) (name : String) (t1 t2 : Table)
    (h1 : t1.name = name) :
    (db.setTable name t1).setTable name t2 = db.setTable name t2 := by
  simp only [Database.setTable, List.map_map]
  congr 1
  apply List.map_congr_left
  intro u _
  by_cases h : u.name = name
  · simp [Function.comp, h, h1]
  · simp [Function.comp, h]

/-- Helper: replacing a found table by itself is the identity when table
names are unique. -/
theorem setTable_self (db : Database) (name : String) (t : Table)
    (hnodup : (db.tables.map Table.name).Nodup)
    (h : db.getTable name = .ok t) :
    db.setTable name t = db := by
  unfold Database.getTable at h
  rcases hf : db.tables.find? (fun u => u.name = name) with _ | u
  · rw [hf] at h
    exact absurd h (by simp [errDb])
  · rw [hf] at h
    have hut : u = t := by simpa using h
    rw [← hut]
    have hmain : ∀ l : List Table, (l.map Table.name).Nodup →
        l.find? (fun w => w.name = name) = some u →
        l.map (fun w => if w.name = name then u else w) = l := by
      intro l
      induction l with
      | nil =>
        intro _ hfind
        cases hfind
      | cons w rest ih =>
        intro hnd hfind
        by_cases hw : w.name = name
        · rw [List.find?_cons_of_pos _ (by simpa using hw)] at hfind
          simp only [Option.some.injEq] at hfind
          simp only [List.map_cons]
          rw [if_pos hw, hfind]
          congr 1
          have hnotin : name ∉ rest.map Table.name := by
            rw [List.map_cons] at hnd
            rw [← hw]
            exact (List.nodup_cons.mp hnd).1
          have hid : ∀ v ∈ rest, (if v.name = name then u else v) = v := by
            intro v hv
            refine if_neg (fun hc => hnotin ?_)
            rw [← hc]
            exact List.mem_map_of_mem Table.name hv
          rw [List.map_congr_left hid]
          exact List.map_id _
        · rw [List.find?_cons_of_neg _ (by simpa using hw)] at hfind
          rw [List.map_cons, if_neg hw]
          rw [List.map_cons] at hnd
          exact congrArg (w :: ·) (ih (List.Nodup.of_cons hnd) hfind)
    have h2 := hmain db.tables hnodup hf
    unfold Database.setTable
    rw [h2]

/-- Helper: the matching-row scan collects exactly the indices whose
evaluation is true, when every evaluation succeeds. -/
theorem computeMatchingRows_eq (FM : FloatModel) (db : Database)
    (cond : Option Expr) (table_name : String) (n : Nat) (p : Nat → Bool)
    (h : ∀ i, i < n →
      (match cond with
       | some c => evaluateWhereCondition FM db c table_name i
       | none => .ok true) = .ok (p i)) :
    computeMatchingRows FM db cond table_name n =
      .ok ((List.range n).filter p) := by
  have hfold : ∀ (I : List Nat) (acc : List Nat),
      (∀ i ∈ I, (match cond with
        | some c => evaluateWhereCondition FM db c table_name i
        | none => .ok true) = .ok (p i)) →
      I.foldlM ((fun matching_rows row_idx =>
        match (match cond with
               | some condition =>
                 evaluateWhereCondition FM db condition table_name row_idx
               | none => .ok true) with
        | .error e => .error e
        | .ok should_delete =>
          .ok (if should_delete then matching_rows ++ [row_idx]
               else matching_rows)) :
          List Nat → Nat → Except RunError (List Nat)) acc =
        .ok (acc ++ I.filter p) := by
    intro I
    induction I with
    | nil =>
      intro acc _
      simp
      rfl
    | cons i I ih =>
      intro acc hall
      have hrest : ∀ a ∈ I, (match cond with
          | some c => evaluateWhereCondition FM db c table_name a
          | none => .ok true) = .ok (p a) :=
        fun a ha => hall a (List.mem_cons_of_mem _ ha)
      have hi := hall i (List.mem_cons_self _ _)
      by_cases hp : p i = true
      · have hstep : (match (match cond with
            | some condition =>
              evaluateWhereCondition FM db condition table_name i
            | none => .ok true) with
          | .error e => .error e
          | .ok should_delete =>
            .ok (if should_delete then acc ++ [i] else acc)) =
            (.ok (acc ++ [i]) : Except RunError (List Nat)) := by
          rw [hi, hp]
          simp
        rw [List.foldlM_cons, hstep]
        rw [List.filter_cons_of_pos hp]
        rw [show acc ++ i :: I.filter p = (acc ++ [i]) ++ I.filter p by simp]
        exact ih (acc ++ [i]) hrest
      · have hstep : (match (match cond with
            | some condition =>
              evaluateWhereCondition FM db condition table_name i
            | none => .ok true) with
          | .error e => .error e
          | .ok should_delete =>
            .ok (if should_delete then acc ++ [i] else acc)) =
            (.ok acc : Except RunError (List Nat)) := by
          rw [hi]
          simp [hp]
        rw [List.foldlM_cons, hstep]
        rw [List.filter_cons_of_neg hp]
        exact ih acc hrest
  have hmain := hfold (List.range n) []
    (fun i hi => h i (List.mem_range.mp hi))
  exact hmain.trans (by rw [List.nil_append])

/-- Helper: erasing a row keeps every column in the supported set. -/
theorem supported_tableEraseRow (t : Table) (i : Nat)
    (h : ∀ c ∈ t.recordBatch.columns, c.deleteSupported = true) :
    ∀ c ∈ (tableEraseRow t i).recordBatch.columns, c.deleteSupported = true := by
  intro c hc
  rcases List.mem_map.mp hc with ⟨c0, hc0, rfl⟩
  rw [deleteSupported_eraseRow]
  exact h c0 hc0

/-- Helper: one successful DELETE of a row through the database writes
back the erased table. -/
theorem deleteRowFromTable_ok (db : Database) (name : String) (t : Table)
    (row_idx : Nat) (hget : db.getTable name = .ok t) (hwf : WellFormed t)
    (hrow : row_idx < t.recordBatch.numRows)
    (hsup : ∀ c ∈ t.recordBatch.columns, c.deleteSupported = true) :
    db.deleteRowFromTable name row_idx =
      .ok (db.setTable name (tableEraseRow t row_idx)) := by
  simp only [Database.deleteRowFromTable, hget,
    table_deleteRow_ok t row_idx hwf hrow hsup]

/-- Helper: a left fold of single-row table erasures maps every column
by the corresponding fold of index erasures. -/
theorem foldl_tableEraseRow :
    ∀ (I : List Nat) (t : Table),
      I.foldl (fun tt k => tableEraseRow tt k) t =
        { t with recordBatch :=
          { schema := t.recordBatch.schema
            columns := t.recordBatch.columns.map
              (fun c => I.foldl (fun col k => col.eraseRow k) c) } } := by
  intro I
  induction I with
  | nil =>
    intro t
    simp
  | cons a I ih =>
    intro t
    rw [List.foldl_cons, ih (tableEraseRow t a)]
    simp only [tableEraseRow, List.map_map]
    congr 1

/-- Helper: the descending delete loop of execute_delete succeeds on a
valid index sequence and produces the fold of single-row erasures,
counting one per deleted row. -/
theorem foldDelete_ok (name : String) :
    ∀ (I : List Nat) (db : Database) (t : Table) (acc : Nat),
      (db.tables.map Table.name).Nodup →
      db.getTable name = .ok t →
      WellFormed t →
      (∀ c ∈ t.recordBatch.columns, c.deleteSupported = true) →
      ValidDeleteSeq I t.recordBatch.numRows →
      I.foldlM ((fun state row_idx =>
          match state.2.deleteRowFromTable name row_idx with
          | .error e => .error e
          | .ok db2 => .ok (state.1 + 1, db2)) :
        Nat × Database → Nat → Except RunError (Nat × Database)) (acc, db) =
        .ok (acc + I.length,
          db.setTable name (I.foldl (fun tt k => tableEraseRow tt k) t)) := by
  intro I
  induction I with
  | nil =>
    intro db t acc hnodup hget hwf hsup hvalid
    rw [List.foldlM_nil, List.foldl_nil, setTable_self db name t hnodup hget]
    rfl
  | cons i I ih =>
    intro db t acc hnodup hget hwf hsup hvalid
    obtain ⟨hlt, hvalid2⟩ := hvalid
    have htname : t.name = name := getTable_ok_name db name t hget
    have hstep := deleteRowFromTable_ok db name t i hget hwf hlt hsup
    have ht1name : (tableEraseRow t i).name = name := htname
    have hwf2 := tableEraseRow_wf t i hwf hlt
    have hget2 : (db.setTable name (tableEraseRow t i)).getTable name =
        .ok (tableEraseRow t i) :=
      getTable_setTable db name t (tableEraseRow t i) hget ht1name
    have hnodup2 : ((db.setTable name (tableEraseRow t i)).tables.map
        Table.name).Nodup := by
      rw [setTable_names db name (tableEraseRow t i) ht1name]
      exact hnodup
    have hrec := ih (db.setTable name (tableEraseRow t i)) (tableEraseRow t i)
      (acc + 1) hnodup2 hget2 hwf2.1 (supported_tableEraseRow t i hsup)
      (by rw [hwf2.2.1]; exact hvalid2)
    rw [List.foldlM_cons]
    have hstep2 : ((match db.deleteRowFromTable name i with
        | .error e => .error e
        | .ok db2 => .ok (acc + 1, db2)) :
          Except RunError (Nat × Database)) =
        .ok (acc + 1, db.setTable name (tableEraseRow t i)) := by
      rw [hstep]
    rw [hstep2]
    refine hrec.trans ?_
    rw [setTable_setTable db name (tableEraseRow t i) _ ht1name]
    have harith : acc + 1 + I.length = acc + (i :: I).length := by
      rw [List.length_cons]
      omega
    rw [harith, List.foldl_cons]

/-- C6: execute_delete collects the matching row indices by evaluating
the WHERE predicate on every row index below the row count (all rows
when there is no WHERE), deletes exactly those rows in descending
row-index order so earlier deletes do not perturb later indices,
returns the matched count, and leaves precisely the non-matching rows
in their original relative order. -/
theorem executeDelete_correct (FM : FloatModel) (db : Database)
    (table_name : String) (input : LogicalPlan) (cond : Option Expr)
    (t : Table) (p : Nat → Bool)
    (hnodup : (db.tables.map Table.name).Nodup)
    (hplan : parseDeletePlan input = .ok cond)
    (hget : db.getTable table_name = .ok t)
    (hwf : WellFormed t)
    (hsup : ∀ c ∈ t.recordBatch.columns, c.deleteSupported = true)
    (heval : ∀ i, i < t.recordBatch.numRows →
      (match cond with
       | some c => evaluateWhereCondition FM db c table_name i
       | none => .ok true) = .ok (p i)) :
    Database.executeDelete FM db table_name input =
      .ok (((List.range t.recordBatch.numRows).filter p).length,
        db.setTable table_name (tableKeepRows t p)) := by
  have hmatch := computeMatchingRows_eq FM db cond table_name
    t.recordBatch.numRows p heval
  have hfold := foldDelete_ok table_name
    (((List.range t.recordBatch.numRows).filter p).reverse) db t 0 hnodup
    hget hwf hsup (validDeleteSeq_filter_rev p t.recordBatch.numRows)
  have hred : Database.executeDelete FM db table_name input =
      (((List.range t.recordBatch.numRows).filter p).reverse).foldlM
        ((fun state row_idx =>
          match state.2.deleteRowFromTable table_name row_idx with
          | .error e => .error e
          | .ok db2 => .ok (state.1 + 1, db2)) :
          Nat × Database → Nat → Except RunError (Nat × Database))
        (0, db) := by
    simp only [Database.executeDelete, hplan, hget, hmatch]
  rw [hred, hfold]
  have hlen : 0 + (((List.range t.recordBatch.numRows).filter p).reverse).length =
      ((List.range t.recordBatch.numRows).filter p).length := by
    simp
  have htab : (((List.range t.recordBatch.numRows).filter p).reverse).foldl
      (fun tt k => tableEraseRow tt k) t = tableKeepRows t p := by
    rw [foldl_tableEraseRow]
    simp only [tableKeepRows]
    congr 2
    apply List.map_congr_left
    intro c hc
    have hc2 := hwf.2.1 c hc
    rw [← hc2]
    exact column_fold_eraseRow p c
  rw [hlen, htab]

/-- C6 witness: DELETE FROM users WHERE id > 2 on the seeded users
table matches rows 2 and 3 and keeps rows 0 and 1 in order. -/
theorem executeDelete_correct_witness :
    Database.executeDelete trivialFloatModel sampleDb "users"
      (.filter (.binary (.column "id") .gt (.literal (.int64 (some 2))))
        (.tableScan "users")) =
      .ok (((List.range usersTable.recordBatch.numRows).filter
          (fun i => decide (2 ≤ i))).length,
        sampleDb.setTable "users"
          (tableKeepRows usersTable (fun i => decide (2 ≤ i)))) :=
  executeDelete_correct trivialFloatModel sampleDb "users"
    (.filter (.binary (.column "id") .gt (.literal (.int64 (some 2))))
      (.tableScan "users"))
    (some (.binary (.column "id") .gt (.literal (.int64 (some 2)))))
    usersTable (fun i => decide (2 ≤ i)) (by decide) rfl rfl
    (by unfold WellFormed; decide) (by decide)
    (by
      intro i hi
      have hi4 : i < 4 := hi
      interval_cases i <;> rfl)

end ArrowDb
